import Mathlib

/-!
Verification of the derived-variable computation engine of `mllam-data-prep`
(`mllam_data_prep/derived_variables.py`), by a shallow embedding.

Modelling conventions:
* An xarray `DataArray` holds its contents as a computation graph (`Graph`): concrete
  coordinate/input data is a `leaf` of optional integers (with `none` standing
  for a missing value / NaN), while floating-point numeric work (sin, cos, the
  datetime accessors, ...) is kept symbolic, since the engine's job — per the
  code — is only to build a lazy, well-labelled, well-chunked graph.
* Python dicts are association lists (`AList`); dict-update is `alSet`.
* Exceptions are `Except Err`; the error constructors carry exactly the data
  the corresponding Python message interpolates.
* `loguru` warnings are collected in a list (`Warn`), observational only.
-/

set_option linter.unusedVariables false

deriving instance DecidableEq for Except

namespace MDP

/-! ### Association lists (Python dicts) -/

abbrev AList (α : Type) := List (String × α)

def alGet {α : Type} : AList α → String → Option α
  | [], _ => none
  | (k, v) :: rest, n => if k = n then some v else alGet rest n

def alSet {α : Type} : AList α → String → α → AList α
  | [], n, v => [(n, v)]
  | (k, w) :: rest, n, v => if k = n then (k, v) :: rest else (k, w) :: alSet rest n v

def alErase {α : Type} (l : AList α) (n : String) : AList α :=
  l.filter (fun p => p.1 ≠ n)

def alHas {α : Type} (l : AList α) (n : String) : Bool :=
  (alGet l n).isSome

def alKeys {α : Type} (l : AList α) : List String :=
  l.map Prod.fst

/-! ### Computation graphs (lazy array contents) -/

inductive Graph where
  | leaf : List (Option Int) → Graph
  | intc : Int → Graph
  | floatc : String → Graph
  | piG : Graph
  | add : Graph → Graph → Graph
  | sub : Graph → Graph → Graph
  | mul : Graph → Graph → Graph
  | div : Graph → Graph → Graph
  | sinG : Graph → Graph
  | cosG : Graph → Graph
  | ltG : Graph → Graph → Graph
  | whereG : Graph → Graph → Graph → Graph
  | hourG : Graph → Graph
  | dayofyearG : Graph → Graph
deriving DecidableEq, Repr

/-- `int(arr.count())`: the number of non-null elements of a concrete array.
The engine only applies this to eagerly-loaded coordinate arrays, which are
always leaves; a lazy graph is given count 0 here. -/
def graphCount : Graph → Nat
  | .leaf vals => (vals.filter Option.isSome).length
  | _ => 0

/-! ### Labelled arrays -/

structure DataArray where
  name : Option String
  dims : List String
  shape : List Nat
  data : Graph
  attrs : AList (Option String)
  chunks : AList Nat
deriving DecidableEq, Repr

/-- xarray broadcasting of dimension/size maps: dimensions of the left operand
first, then the new ones of the right operand, in order of appearance. -/
def bmerge (p q : List (String × Nat)) : List (String × Nat) :=
  p ++ q.filter (fun r => (alGet p r.1).isNone)

def dimsOf (a : DataArray) : List (String × Nat) :=
  a.dims.zip a.shape

/-- Binary arithmetic between two `DataArray`s.  xarray keeps the name only
when the operands' names agree, and drops attrs on arithmetic. -/
def arrBin (f : Graph → Graph → Graph) (a b : DataArray) : DataArray :=
  let m := bmerge (dimsOf a) (dimsOf b)
  { name := if a.name = b.name then a.name else none
    dims := m.map Prod.fst
    shape := m.map Prod.snd
    data := f a.data b.data
    attrs := []
    chunks := [] }

/-- `DataArray (op) scalar`: the name survives, attrs are dropped. -/
def arrBinS (f : Graph → Graph → Graph) (a : DataArray) (c : Graph) : DataArray :=
  { name := a.name, dims := a.dims, shape := a.shape
    data := f a.data c, attrs := [], chunks := [] }

/-- `scalar (op) DataArray`. -/
def arrSBin (f : Graph → Graph → Graph) (c : Graph) (b : DataArray) : DataArray :=
  { name := b.name, dims := b.dims, shape := b.shape
    data := f c b.data, attrs := [], chunks := [] }

/-- Elementwise unary ufunc (`np.sin`, `np.cos`): keeps the name, drops attrs. -/
def arrMapU (f : Graph → Graph) (a : DataArray) : DataArray :=
  { name := a.name, dims := a.dims, shape := a.shape
    data := f a.data, attrs := [], chunks := [] }

/-- A Python numeric scalar, lifted to a 0-dimensional unnamed array where the
source mixes scalars with arrays. -/
def scalarArr (g : Graph) : DataArray :=
  { name := none, dims := [], shape := [], data := g, attrs := [], chunks := [] }

/-- `time.dt.hour` (the `xr.DataArray` branch of the source's isinstance
dispatch; the engine always passes arrays, so the `datetime.datetime` branch is
unreachable from `derive_variables` and is not modelled). -/
def dtHour (time : DataArray) : DataArray :=
  { name := some "hour", dims := time.dims, shape := time.shape
    data := .hourG time.data, attrs := [], chunks := time.chunks }

/-- `time.dt.dayofyear` (same remark as `dtHour`). -/
def dtDayofyear (time : DataArray) : DataArray :=
  { name := some "dayofyear", dims := time.dims, shape := time.shape
    data := .dayofyearG time.data, attrs := [], chunks := time.chunks }

/-- `xr.where(cond, scalar, arr)` as used at the end of the TOA computation. -/
def whereArr (cond : DataArray) (scalar : Graph) (arr : DataArray) : DataArray :=
  let m := bmerge (dimsOf cond) (dimsOf arr)
  { name := none, dims := m.map Prod.fst, shape := m.map Prod.snd
    data := .whereG cond.data scalar arr.data, attrs := [], chunks := [] }

/-! ### The derivation functions (module-level functions of the source) -/

/-- `cyclic_encoding(data, data_max)`: returns `(data_cos, data_sin)` with
`data_sin = np.sin((data / data_max) * 2 * np.pi)` and the cosine analogue. -/
def cyclic_encoding (data data_max : DataArray) : DataArray × DataArray :=
  let data_sin :=
    arrMapU .sinG (arrBinS .mul (arrBinS .mul (arrBin .div data data_max) (.intc 2)) .piG)
  let data_cos :=
    arrMapU .cosG (arrBinS .mul (arrBinS .mul (arrBin .div data data_max) (.intc 2)) .piG)
  (data_cos, data_sin)

/-- `calculate_toa_radiation(lat, lon, time)`: builds the TOA radiation graph,
then names the result and sets its `long_name`/`units` attributes. -/
def calculate_toa_radiation (lat lon time : DataArray) : DataArray :=
  let solar_constant : Graph := .intc 1366
  let day := dtDayofyear time
  let hour_utc := dtHour time
  -- dec = np.pi / 180 * 23.45 * np.sin(2 * np.pi * (284 + day) / 365)
  let dec := arrSBin .mul (.mul (.div .piG (.intc 180)) (.floatc "23.45"))
      (arrMapU .sinG (arrBinS .div (arrSBin .mul (.mul (.intc 2) .piG)
        (arrSBin .add (.intc 284) day)) (.intc 365)))
  -- utc_solar_time = hour_utc + lon / 15
  let utc_solar_time := arrBin .add hour_utc (arrBinS .div lon (.intc 15))
  -- hour_angle = 15 * (utc_solar_time - 12)
  let hour_angle := arrSBin .mul (.intc 15) (arrBinS .sub utc_solar_time (.intc 12))
  -- cos_sza = sin(lat*pi/180)*sin(dec) + cos(lat*pi/180)*cos(dec)*cos(hour_angle*pi/180)
  let cos_sza := arrBin .add
      (arrBin .mul (arrMapU .sinG (arrBinS .div (arrBinS .mul lat .piG) (.intc 180)))
        (arrMapU .sinG dec))
      (arrBin .mul
        (arrBin .mul (arrMapU .cosG (arrBinS .div (arrBinS .mul lat .piG) (.intc 180)))
          (arrMapU .cosG dec))
        (arrMapU .cosG (arrBinS .div (arrBinS .mul hour_angle .piG) (.intc 180))))
  -- toa_radiation = xr.where(solar_constant * cos_sza < 0, 0, solar_constant * cos_sza)
  let prod := arrSBin .mul solar_constant cos_sza
  let toa_radiation := whereArr (arrBinS .ltG prod (.intc 0)) (.intc 0) prod
  { toa_radiation with
    name := some "toa_radiation"
    attrs := alSet (alSet toa_radiation.attrs "long_name"
      (some "top-of-the-atmosphere radiation")) "units" (some "W*m**-2") }

/-- `calculate_hour_of_day(time)`: cyclic encoding of the hour, returning the
tuple `(hour_of_day_cos, hour_of_day_sin)` with names and attributes set.
The source passes the Python scalar `24` as `data_max`, modelled by a
0-dimensional scalar array. -/
def calculate_hour_of_day (time : DataArray) : DataArray × DataArray :=
  let hour_of_day := dtHour time
  let enc := cyclic_encoding hour_of_day (scalarArr (.intc 24))
  let hour_of_day_cos :=
    { enc.1 with
      name := some "hour_of_day_cos"
      attrs := alSet (alSet enc.1.attrs "long_name"
        (some "Cosine component of cyclically encoded hour of day")) "units" (some "1") }
  let hour_of_day_sin :=
    { enc.2 with
      name := some "hour_of_day_sin"
      attrs := alSet (alSet enc.2.attrs "long_name"
        (some "Sine component of cyclically encoded hour of day")) "units" (some "1") }
  (hour_of_day_cos, hour_of_day_sin)

/-- `calculate_day_of_year(time)`: cyclic encoding of the day of year (max 366),
returning `(day_of_year_cos, day_of_year_sin)`. -/
def calculate_day_of_year (time : DataArray) : DataArray × DataArray :=
  let day_of_year := dtDayofyear time
  let enc := cyclic_encoding day_of_year (scalarArr (.intc 366))
  let day_of_year_cos :=
    { enc.1 with
      name := some "day_of_year_cos"
      attrs := alSet (alSet enc.1.attrs "long_name"
        (some "Cosine component of cyclically encoded day of year")) "units" (some "1") }
  let day_of_year_sin :=
    { enc.2 with
      name := some "day_of_year_sin"
      attrs := alSet (alSet enc.2.attrs "long_name"
        (some "Sine component of cyclically encoded day of year")) "units" (some "1") }
  (day_of_year_cos, day_of_year_sin)

/-! ### Errors, warnings, Python objects -/

/-- The exceptions the engine can raise.  Each constructor carries the data the
corresponding Python message interpolates. -/
inductive Err where
  /-- `KeyError` from `ds[name]` when `name` is neither a variable nor a
  coordinate. -/
  | keyError : String → Err
  /-- `KeyError(f"Dimension '{dim}' not found in the dataset.")` raised by the
  per-variable check of `_chunk_dataset`. -/
  | keyErrorDim : String → Err
  /-- `ValueError` from `ds.chunk` when the plan names dimensions absent from
  the dataset. -/
  | valueErrorChunkDims : List String → Err
  /-- `Exception(f"Error chunking dataset: {ex}")`: the wrapper of
  the try/except wrapper inside `_chunk_dataset` around `ds.chunk`. -/
  | chunkWrapError : Err → Err
  /-- `ValueError` from `reset_coords` on an indexed or absent coordinate. -/
  | valueErrorResetCoords : String → Err
  /-- The `TypeError` of `_get_derived_variable_function` for an unresolvable
  bare function name: carries the name and the calling module. -/
  | typeErrorUnresolved : String → String → Err
  /-- `ModuleNotFoundError` from `importlib.import_module`. -/
  | moduleNotFoundError : String → Err
  /-- `AttributeError` from `getattr`: carries a description of the object and
  the missing attribute name. -/
  | attributeError : String → String → Err
  /-- Python's `TypeError` when a non-callable (e.g. `None`) is invoked. -/
  | typeErrorNotCallable : Err
  /-- Python's `TypeError` for missing/unexpected keyword arguments: carries
  the function name and the keyword names it received. -/
  | typeErrorBadArgs : String → List String → Err
  /-- The `TypeError("Expected an instance of xr.DataArray or tuple(...)")` of
  `_check_field` / the merge step: carries the actual type's description. -/
  | typeErrorFieldKind : String → Err
  /-- The `ValueError` of `_check_attributes` for a required attribute that is
  neither set on the array nor supplied by the config: carries the attribute
  and the array's name — the `MissingAttributeError` kind of the spec. -/
  | valueErrorMissingAttr : String → Option String → Err
  /-- Any other runtime failure of a call whose body lies outside this module
  (external functions, engine helpers invoked with array kwargs, ...). -/
  | runtimeError : String → Err
deriving DecidableEq, Repr

/-- `loguru` warnings (observational). -/
inductive Warn where
  /-- The attribute-overwrite warning of `_check_attributes`: attribute, array
  name, old value, new value. -/
  | attrOverwrite : String → Option String → String → String → Warn
deriving DecidableEq, Repr

/-- References to Python function objects reachable by the resolver. -/
inductive FuncRef where
  | toaRad | hourOfDay | dayOfYear | cyclicEnc | latlonInput
  /-- Other module-level callables of the engine (`derive_variables` itself,
  the private helpers): resolvable by name, but never meaningfully callable
  with array keyword arguments. -/
  | engineFn : String → FuncRef
  /-- A function attribute of an external module. -/
  | extFn : String → String → FuncRef
  /-- A bound method of a `str` object (what `getattr` on a module-name string
  yields). -/
  | strMethod : String → String → FuncRef
deriving DecidableEq, Repr

/-- The Python values the engine passes around. -/
inductive PyObj where
  | arr : DataArray → PyObj
  | tup : List DataArray → PyObj
  | pyFn : FuncRef → PyObj
  | pyModule : String → PyObj
  | pyStr : String → PyObj
  | pyNone : PyObj
deriving DecidableEq, Repr

/-- `type(x)`, as interpolated into `TypeError` messages. -/
def pyTypeDesc : PyObj → String
  | .arr _ => "xarray.core.dataarray.DataArray"
  | .tup _ => "tuple"
  | .pyFn _ => "function"
  | .pyModule _ => "module"
  | .pyStr _ => "str"
  | .pyNone => "NoneType"

/-- Python truthiness, for `if not function`. -/
def truthy : PyObj → Bool
  | .pyNone => false
  | .pyStr s => s ≠ ""
  | _ => true

/-! ### Datasets -/

structure Dataset where
  data_vars : AList DataArray
  coords : AList DataArray
  /-- Names of the coordinates that carry an index. -/
  indexes : List String
  attrs : AList (Option String)
deriving DecidableEq, Repr

namespace Dataset

/-- `ds.sizes` / `ds.dims`: dimension sizes collected from all variables'
shapes, first occurrence winning. -/
def sizes (ds : Dataset) : AList Nat :=
  (ds.data_vars ++ ds.coords).foldl (fun acc p => bmerge acc (dimsOf p.2)) []

/-- `ds[name]` for a single name: looks among data variables and coordinates,
raising `KeyError` otherwise. -/
def getVar (ds : Dataset) (name : String) : Except Err DataArray :=
  match alGet ds.data_vars name with
  | some a => .ok a
  | none =>
    match alGet ds.coords name with
    | some a => .ok a
    | none => .error (.keyError name)

end Dataset

/-- Looks up each requested name in turn, pairing it with its array. -/
def pickVars (ds : Dataset) : List String → Except Err (List (String × DataArray))
  | [] => .ok []
  | n :: rest =>
    match ds.getVar n with
    | .ok a => (pickVars ds rest).map (fun r => (n, a) :: r)
    | .error e => .error e

/-- `ds[names]` for a list of names, per xarray's `Dataset._copy_listed`:
the named variables keep their (data-variable or coordinate) role, and every
other coordinate whose dimensions are covered by the selected variables'
dimensions is carried along, together with the surviving indexes. -/
def selectVars (ds : Dataset) (names : List String) : Except Err Dataset :=
  match pickVars ds names with
  | .error e => .error e
  | .ok picked =>
    let needed_dims := picked.foldl (fun acc p => acc ++ p.2.dims.filter (· ∉ acc)) []
    let data_vars := picked.filter (fun p => alHas ds.data_vars p.1)
    let coords := ds.coords.filter
      (fun p => decide (p.1 ∈ names) || p.2.dims.all (· ∈ needed_dims))
    let indexes := ds.indexes.filter (fun n => alHas coords n)
    .ok { data_vars := data_vars, coords := coords, indexes := indexes, attrs := ds.attrs }

/-- `ds.drop_indexes(names, errors="ignore")`: detaches the indexes, keeping
the coordinates themselves. -/
def drop_indexes (ds : Dataset) (names : List String) : Dataset :=
  { ds with indexes := ds.indexes.filter (· ∉ names) }

/-- `ds.reset_coords(name)`: demotes a (non-indexed) coordinate to a data
variable. -/
def reset_coords (ds : Dataset) (name : String) : Except Err Dataset :=
  if name ∈ ds.indexes then .error (.valueErrorResetCoords name)
  else
    match alGet ds.coords name with
    | some a =>
      .ok { ds with coords := alErase ds.coords name
                    data_vars := alSet ds.data_vars name a }
    | none => .error (.valueErrorResetCoords name)

/-- A chunk plan applied to one array: the plan restricted to the array's own
dimensions. -/
def chunkArray (a : DataArray) (chunks : AList Nat) : DataArray :=
  { a with chunks := chunks.filter (fun p => decide (p.1 ∈ a.dims)) }

/-- `ds.chunk(chunks)`: data variables and non-indexed coordinates receive the
plan (indexed coordinates cannot be chunked); a plan naming unknown dimensions
raises. -/
def applyChunk (ds : Dataset) (chunks : AList Nat) : Except Err Dataset :=
  let bad := (alKeys chunks).filter (fun d => !alHas ds.sizes d)
  if bad.isEmpty then
    .ok { ds with
      data_vars := ds.data_vars.map (fun p => (p.1, chunkArray p.2 chunks))
      coords := ds.coords.map
        (fun p => if p.1 ∈ ds.indexes then p else (p.1, chunkArray p.2 chunks)) }
  else .error (.valueErrorChunkDims bad)

/-- `ds.chunk(-1, -1)`: a single full-size chunk per dimension (the second
`-1` lands on `name_prefix` and is ignored by xarray).  The full-size plan
always passes the dimension check of `applyChunk`, so the fallback branch is
unreachable. -/
def dsChunkFull (ds : Dataset) : Dataset :=
  match applyChunk ds ds.sizes with
  | .ok d => d
  | .error _ => ds

/-- `get_latlon_coords_for_input(ds_input)`: `ds_input[["lat", "lon"]].chunk(-1, -1)`. -/
def get_latlon_coords_for_input (ds_input : Dataset) : Except Err Dataset := do
  let sub ← selectVars ds_input ["lat", "lon"]
  pure (dsChunkFull sub)

/-- `_chunk_dataset(ds, chunks)` (lines 101-147): the per-data-variable check
loop — of which only the dimension-existence `KeyError` is observable in this
model, the 1 GiB memory warning needing byte widths the model does not carry —
followed by `ds.chunk(chunks)` with its exception wrapped. -/
def _chunk_dataset (ds : Dataset) (chunks : AList Nat) : Except Err Dataset := do
  let _ ← ds.data_vars.mapM (fun _v =>
    chunks.mapM (fun q =>
      match alGet ds.sizes q.1 with
      | some _ => Except.ok ()
      | none => Except.error (Err.keyErrorDim q.1)))
  match applyChunk ds chunks with
  | .ok ds2 => .ok ds2
  | .error ex => .error (.chunkWrapError ex)

/-- The chunk-plan construction of `derive_variables` (lines 51-53):
`{dim: chunking.get(dim, int(ds_input[dim].count())) for dim in ds_input.dims}`.
Iteration over the subset's dimension names; an unspecified dimension defaults
to the non-null element count of the subset's same-named array, and a
dimension with no same-named array raises `KeyError`. -/
def buildChunksGo (ds_input : Dataset) (chunking : AList Nat) :
    List String → Except Err (AList Nat)
  | [] => .ok []
  | dim :: rest =>
    match
      (match alGet chunking dim with
       | some c => Except.ok c
       | none => (ds_input.getVar dim).map (fun a : DataArray => graphCount a.data)) with
    | .ok c => (buildChunksGo ds_input chunking rest).map (fun r => (dim, c) :: r)
    | .error e => .error e

def buildChunks (ds_input : Dataset) (chunking : AList Nat) : Except Err (AList Nat) :=
  buildChunksGo ds_input chunking (alKeys ds_input.sizes)

/-! ### The function resolver -/

/-- `globals()["__name__"]` of the engine module. -/
def calling_module : String := "mllam_data_prep.derived_variables"

/-- `globals()` of the engine module: every module-level name of
`derived_variables.py` — the imports, the logger, and all the functions. -/
def moduleGlobals : AList PyObj :=
  [("__name__", .pyStr calling_module),
   ("datetime", .pyModule "datetime"),
   ("importlib", .pyModule "importlib"),
   ("sys", .pyModule "sys"),
   ("np", .pyModule "numpy"),
   ("xr", .pyModule "xarray"),
   ("logger", .pyModule "loguru.logger"),
   ("derive_variables", .pyFn (.engineFn "derive_variables")),
   ("_chunk_dataset", .pyFn (.engineFn "_chunk_dataset")),
   ("_get_derived_variable_function", .pyFn (.engineFn "_get_derived_variable_function")),
   ("_check_field", .pyFn (.engineFn "_check_field")),
   ("_check_attributes", .pyFn (.engineFn "_check_attributes")),
   ("_return_dropped_coordinates", .pyFn (.engineFn "_return_dropped_coordinates")),
   ("calculate_toa_radiation", .pyFn .toaRad),
   ("calculate_hour_of_day", .pyFn .hourOfDay),
   ("calculate_day_of_year", .pyFn .dayOfYear),
   ("cyclic_encoding", .pyFn .cyclicEnc),
   ("get_latlon_coords_for_input", .pyFn .latlonInput)]

/-- The importable external world: module name, then attribute name to value. -/
structure PyEnv where
  modules : AList (AList PyObj)
deriving DecidableEq, Repr

/-- The process-wide state the engine touches: the `sys.modules` cache and the
warnings logged so far. -/
structure PyState where
  sysModules : List String
  warnings : List Warn
deriving DecidableEq, Repr

/-- Splits a character list at its LAST dot, or `none` if it has no dot. -/
def rsplitDotAux : List Char → Option (List Char × List Char)
  | [] => none
  | c :: rest =>
    match rsplitDotAux rest with
    | some p => some (c :: p.1, p.2)
    | none => if c = '.' then some ([], rest) else none

/-- `s.rsplit(".", 1)` when `s` contains a dot, `none` otherwise (mirroring the
`if "." in function_namespace` test). -/
def rsplitDot (s : String) : Option (String × String) :=
  (rsplitDotAux s.toList).map (fun p => (String.mk p.1, String.mk p.2))

/-- Names of the (argumentless) `str` methods: what `getattr` can find on a
module-name string. -/
def strMethods : List String :=
  ["capitalize", "casefold", "encode", "format", "join", "lower", "lstrip",
   "replace", "rsplit", "rstrip", "split", "strip", "title", "upper"]

/-- `getattr(obj, attrName)`. -/
def getattrObj (env : PyEnv) (obj : PyObj) (attrName : String) : Except Err PyObj :=
  match obj with
  | .pyStr s =>
    if attrName ∈ strMethods then .ok (.pyFn (.strMethod s attrName))
    else .error (.attributeError "str" attrName)
  | .pyModule m =>
    match alGet env.modules m with
    | some attrsOfM =>
      match alGet attrsOfM attrName with
      | some v => .ok v
      | none => .error (.attributeError m attrName)
    | none => .error (.attributeError m attrName)
  | other => .error (.attributeError (pyTypeDesc other) attrName)

/-- `importlib.import_module(m)`: loads an available module, recording it in
`sys.modules`; raises `ModuleNotFoundError` otherwise. -/
def import_module (env : PyEnv) (st : PyState) (m : String) :
    Except Err (PyObj × PyState) :=
  if alHas env.modules m then
    .ok (.pyModule m,
      { st with sysModules :=
          if m ∈ st.sysModules then st.sysModules else st.sysModules ++ [m] })
  else .error (.moduleNotFoundError m)

/-- The `module_name == calling_module` branch (lines 176-177):
`globals().get(function_name)` — `None` when absent, with no error raised. -/
def resolveInNamespace (function_name : String) : PyObj :=
  (alGet moduleGlobals function_name).getD .pyNone

/-- `_get_derived_variable_function(function_namespace)` (lines 150-199).
The already-imported branch binds `module = module_name` — the module-name
STRING, not the module object — exactly as the source does, so the subsequent
`getattr` operates on a `str`. -/
def _get_derived_variable_function (env : PyEnv) (st : PyState)
    (function_namespace : String) : Except Err PyObj × PyState :=
  match rsplitDot function_namespace with
  | some (module_name, function_name) =>
    if module_name = calling_module then
      (.ok (resolveInNamespace function_name), st)
    else if module_name ∈ st.sysModules then
      (getattrObj env (.pyStr module_name) function_name, st)
    else
      match import_module env st module_name with
      | .ok (m, st') =>
        (getattrObj env m function_name, st')
      | .error e => (.error e, st)
  | none =>
    match alGet moduleGlobals function_namespace with
    | some f =>
      if truthy f then (.ok f, st)
      else (.error (.typeErrorUnresolved function_namespace calling_module), st)
    | none => (.error (.typeErrorUnresolved function_namespace calling_module), st)

/-- `expected` and the received keyword names agree as sets (Python raises
`TypeError` for a missing or unexpected keyword argument). -/
def argsMatch (got expected : List String) : Bool :=
  expected.all (· ∈ got) && got.all (· ∈ expected)

/-- `func(**kwargs)` for the values the resolver can produce.  The engine's
own derivation functions are modelled in full; calls whose bodies live outside
the repository (external functions) or that cannot accept array keyword
arguments at all (`str` methods, the engine helpers, the collaborators of
`cyclic_encoding`) fail as they would in Python. -/
def callObj (obj : PyObj) (kwargs : AList DataArray) : Except Err PyObj :=
  match obj with
  | .pyFn f =>
    match f with
    | .toaRad =>
      if argsMatch (alKeys kwargs) ["lat", "lon", "time"] then
        match alGet kwargs "lat", alGet kwargs "lon", alGet kwargs "time" with
        | some lat, some lon, some time =>
          .ok (.arr (calculate_toa_radiation lat lon time))
        | _, _, _ => .error (.typeErrorBadArgs "calculate_toa_radiation" (alKeys kwargs))
      else .error (.typeErrorBadArgs "calculate_toa_radiation" (alKeys kwargs))
    | .hourOfDay =>
      if argsMatch (alKeys kwargs) ["time"] then
        match alGet kwargs "time" with
        | some time =>
          let enc := calculate_hour_of_day time
          .ok (.tup [enc.1, enc.2])
        | none => .error (.typeErrorBadArgs "calculate_hour_of_day" (alKeys kwargs))
      else .error (.typeErrorBadArgs "calculate_hour_of_day" (alKeys kwargs))
    | .dayOfYear =>
      if argsMatch (alKeys kwargs) ["time"] then
        match alGet kwargs "time" with
        | some time =>
          let enc := calculate_day_of_year time
          .ok (.tup [enc.1, enc.2])
        | none => .error (.typeErrorBadArgs "calculate_day_of_year" (alKeys kwargs))
      else .error (.typeErrorBadArgs "calculate_day_of_year" (alKeys kwargs))
    | .cyclicEnc =>
      if argsMatch (alKeys kwargs) ["data", "data_max"] then
        match alGet kwargs "data", alGet kwargs "data_max" with
        | some data, some data_max =>
          let enc := cyclic_encoding data data_max
          .ok (.tup [enc.1, enc.2])
        | _, _ => .error (.typeErrorBadArgs "cyclic_encoding" (alKeys kwargs))
      else .error (.typeErrorBadArgs "cyclic_encoding" (alKeys kwargs))
    | .latlonInput =>
      -- expects a Dataset positionally; with an array bound to `ds_input` its
      -- body fails on `ds_input[["lat", "lon"]]`
      .error (.runtimeError "get_latlon_coords_for_input applied to a DataArray")
    | .engineFn n => .error (.runtimeError n)
    | .extFn m n =>
      -- the body of an external function is not part of this repository
      .error (.runtimeError (m ++ "." ++ n))
    | .strMethod s n => .error (.typeErrorBadArgs n (alKeys kwargs))
  | .pyNone => .error .typeErrorNotCallable
  | other => .error .typeErrorNotCallable

/-! ### The attribute validator -/

/-- The required metadata attributes, in the order the source iterates them. -/
def reqAttrs : List String := ["units", "long_name"]

/-- One iteration of the loop body of `_check_attributes` for one attribute:
missing-or-null with a config fallback adopts the fallback; missing-or-null
without one raises the missing-attribute `ValueError`; present-and-non-null
with a fallback is overwritten under a warning; otherwise untouched. -/
def checkAttrStep (field : DataArray) (field_attributes : AList String)
    (attrib : String) : Except Err DataArray × List Warn :=
  match alGet field.attrs attrib with
  | none =>
    match alGet field_attributes attrib with
    | some v => (.ok { field with attrs := alSet field.attrs attrib (some v) }, [])
    | none => (.error (.valueErrorMissingAttr attrib field.name), [])
  | some none =>
    match alGet field_attributes attrib with
    | some v => (.ok { field with attrs := alSet field.attrs attrib (some v) }, [])
    | none => (.error (.valueErrorMissingAttr attrib field.name), [])
  | some (some old) =>
    match alGet field_attributes attrib with
    | some v =>
      (.ok { field with attrs := alSet field.attrs attrib (some v) },
       [.attrOverwrite attrib field.name old v])
    | none => (.ok field, [])

/-- `_check_attributes(field, field_attributes)` (lines 235-280): the loop
over `["units", "long_name"]`, raising at the first failing attribute and
keeping the warnings logged up to that point. -/
def _check_attributes (field : DataArray) (field_attributes : AList String) :
    Except Err DataArray × List Warn :=
  reqAttrs.foldl
    (fun acc attrib =>
      match acc.1 with
      | .error e => (.error e, acc.2)
      | .ok f =>
        let step := checkAttrStep f field_attributes attrib
        (step.1, acc.2 ++ step.2))
    (.ok field, [])

/-- `_check_field(derived_field, derived_field_attributes)` (lines 202-232).
In the tuple branch the source mutates each array's attrs in place (the loop
variable rebinding is immaterial, `_check_attributes` returning the same
object), which this model renders by rebuilding the tuple. -/
def _check_field (derived_field : PyObj) (attrs : AList String) :
    Except Err PyObj × List Warn :=
  match derived_field with
  | .arr a =>
    match _check_attributes a attrs with
    | (.ok a2, w) => (.ok (.arr a2), w)
    | (.error e, w) => (.error e, w)
  | .tup fields =>
    let r := fields.foldl
      (fun acc f =>
        match acc with
        | (.error e, done, w) => (.error e, done, w)
        | (.ok _, done, w) =>
          match _check_attributes f attrs with
          | (.ok f2, w2) => (.ok (), done ++ [f2], w ++ w2)
          | (.error e, w2) => (.error e, done, w ++ w2))
      ((Except.ok () : Except Err Unit), ([] : List DataArray), ([] : List Warn))
    match r with
    | (.ok _, done, w) => (.ok (.tup done), w)
    | (.error e, _, w) => (.error e, w)
  | other => (.error (.typeErrorFieldKind (pyTypeDesc other)), [])

/-! ### The derivation executor -/

/-- One derived-variable specification: `kwargs` maps source names in the
dataset to the parameter names the function expects. -/
structure DerivedVariable where
  kwargs : AList String
  function : String
  attributes : AList String
deriving DecidableEq, Repr

/-- Lines 40-43: the reserved `lat`/`lon` aliases are POPPED out of the spec's
own kwargs dict (a destructive, in-place mutation of the spec): returns the
extracted alias bindings and what remains in the spec's kwargs. -/
def popLatLon (kwargs : AList String) : AList String × AList String :=
  (kwargs.filter (fun p => p.1 = "lat" || p.1 = "lon"),
   kwargs.filter (fun p => !(p.1 = "lat" || p.1 = "lon")))

/-- The demotion loop (lines 58-60): for each required coordinate named in the
plan, `ds_input = ds_input.reset_coords(req_coord)`, in order. -/
def resetCoordsLoop (chunks : AList Nat) :
    List String → Dataset → Except Err Dataset
  | [], d => .ok d
  | c :: rest, d =>
    if alHas chunks c then
      match reset_coords d c with
      | .ok d2 => resetCoordsLoop chunks rest d2
      | .error e => .error e
    else resetCoordsLoop chunks rest d

/-- The kwargs-assembly loops (lines 69-71): `kwargs[val] = src[key]` for each
`(key, val)` binding, as dict update. -/
def buildKwargsLoop (src : Dataset) :
    AList String → AList DataArray → Except Err (AList DataArray)
  | [], kw => .ok kw
  | p :: rest, kw =>
    match src.getVar p.1 with
    | .ok a => buildKwargsLoop src rest (alSet kw p.2 a)
    | .error e => .error e

/-- Lines 45-71 for one spec: subset the input dataset, build the chunk plan,
demote the required chunked coordinates, chunk, and assemble the keyword
arguments (lat/lon aliases freshly fetched and unchunked, the rest from the
chunked subset).  Returns the chunked input subset, the plan, the required
coordinates, and the assembled kwargs. -/
def prepare_inputs (ds : Dataset) (chunking : AList Nat) (dv : DerivedVariable) :
    Except Err (Dataset × AList Nat × List String × AList DataArray) :=
  let ll := popLatLon dv.kwargs
  match selectVars ds (alKeys ll.2) with
  | .error e => .error e
  | .ok ds_input0 =>
    match buildChunks ds_input0 chunking with
    | .error e => .error e
    | .ok chunks =>
      let required_coordinates :=
        (alKeys ll.2).filter (fun v => alHas ds_input0.coords v)
      let ds_input1 := drop_indexes ds_input0 required_coordinates
      match resetCoordsLoop chunks required_coordinates ds_input1 with
      | .error e => .error e
      | .ok ds_input2 =>
        match _chunk_dataset ds_input2 chunks with
        | .error e => .error e
        | .ok ds_input =>
          match
            (if !ll.1.isEmpty then
              match get_latlon_coords_for_input ds with
              | .error e => Except.error e
              | .ok latlon => buildKwargsLoop latlon ll.1 []
            else Except.ok ([] : AList DataArray)) with
          | .error e => .error e
          | .ok kwargs0 =>
            match buildKwargsLoop ds_input ll.2 kwargs0 with
            | .error e => .error e
            | .ok kwargs => .ok (ds_input, chunks, required_coordinates, kwargs)

/-- `ds_derived_vars[field.name] = field` (lines 81/86): an existing name is
silently overwritten (keeping its coordinate role if it was a coordinate); an
unnamed array cannot be merged. -/
def setVarNamed (ds : Dataset) (field : DataArray) : Except Err Dataset :=
  match field.name with
  | some n =>
    if alHas ds.coords n then .ok { ds with coords := alSet ds.coords n field }
    else .ok { ds with data_vars := alSet ds.data_vars n field }
  | none => .error (.runtimeError "cannot set a variable with no name")

def addFieldsLoop : List DataArray → Dataset → Except Err Dataset
  | [], acc => .ok acc
  | f :: rest, acc =>
    match setVarNamed acc f with
    | .ok a2 => addFieldsLoop rest a2
    | .error e => .error e

/-- Lines 80-91: merge the checked field(s) into the accumulating output,
keyed by each array's own name.  The type test duplicates the one in `_check_field`. -/
def addDerivedFields (acc : Dataset) (derived_field : PyObj) : Except Err Dataset :=
  match derived_field with
  | .arr field => setVarNamed acc field
  | .tup fields => addFieldsLoop fields acc
  | other => .error (.typeErrorFieldKind (pyTypeDesc other))

def returnDroppedLoop (ds_input : Dataset) (chunks : AList Nat) :
    List String → Dataset → Except Err Dataset
  | [], acc => .ok acc
  | req_coord :: rest, acc =>
    if alHas chunks req_coord then
      match ds_input.getVar req_coord with
      | .ok a =>
        returnDroppedLoop ds_input chunks rest
          { acc with
            data_vars := alErase acc.data_vars req_coord
            coords := alSet acc.coords req_coord a }
      | .error e => .error e
    else returnDroppedLoop ds_input chunks rest acc

/-- `_return_dropped_coordinates` (lines 283-310): each required coordinate
covered by the plan is copied (still chunked) from the input subset back onto
the output dataset as a coordinate of the same name. -/
def _return_dropped_coordinates (ds_derived_vars ds_input : Dataset)
    (required_coordinates : List String) (chunks : AList Nat) : Except Err Dataset :=
  returnDroppedLoop ds_input chunks required_coordinates ds_derived_vars

/-- The per-spec body of the loop of `derive_variables` (lines 35-96), with
the process state threaded explicitly: mutations of `sys.modules` from a
successful module load, and warnings logged before a failure, both survive
the failure. -/
def processDerivedVariable (env : PyEnv) (ds : Dataset) (chunking : AList Nat)
    (st : PyState) (acc : Dataset) (dv : DerivedVariable) :
    Except Err Dataset × PyState :=
  match prepare_inputs ds chunking dv with
  | .error e => (.error e, st)
  | .ok (ds_input, chunks, required_coordinates, kwargs) =>
    match _get_derived_variable_function env st dv.function with
    | (.error e, st1) => (.error e, st1)
    | (.ok func, st1) =>
      match callObj func kwargs with
      | .error e => (.error e, st1)
      | .ok derived_field =>
        match _check_field derived_field dv.attributes with
        | (.error e, ws) => (.error e, { st1 with warnings := st1.warnings ++ ws })
        | (.ok checked, ws) =>
          let st2 := { st1 with warnings := st1.warnings ++ ws }
          match addDerivedFields acc checked with
          | .error e => (.error e, st2)
          | .ok acc1 =>
            match _return_dropped_coordinates acc1 ds_input required_coordinates chunks with
            | .error e => (.error e, st2)
            | .ok acc2 => (.ok acc2, st2)

/-- The loop of `derive_variables` over the specs, in declaration order.  The
third component is the specs as the caller's dict objects stand after the
call: each spec processed so far has had its `lat`/`lon` kwargs popped. -/
def derive_variables_loop (env : PyEnv) (ds : Dataset) (chunking : AList Nat) :
    PyState → Dataset → List (String × DerivedVariable) →
    Except Err Dataset × PyState × List (String × DerivedVariable)
  | st, acc, [] => (.ok acc, st, [])
  | st, acc, (nm, dv) :: rest =>
    let dv' : DerivedVariable := { dv with kwargs := (popLatLon dv.kwargs).2 }
    match processDerivedVariable env ds chunking st acc dv with
    | (.ok acc', st') =>
      match derive_variables_loop env ds chunking st' acc' rest with
      | (r, st'', rest') => (r, st'', (nm, dv') :: rest')
    | (.error e, st') => (.error e, st', (nm, dv') :: rest)

/-- `derive_variables(ds, derived_variables, chunking)` (lines 10-98): the
output starts empty with the input's top-level attrs and accumulates the
derived fields spec by spec. -/
def derive_variables (env : PyEnv) (ds : Dataset)
    (derived_variables : List (String × DerivedVariable)) (chunking : AList Nat)
    (st : PyState) :
    Except Err Dataset × PyState × List (String × DerivedVariable) :=
  let ds_derived_vars : Dataset :=
    { data_vars := [], coords := [], indexes := [], attrs := ds.attrs }
  derive_variables_loop env ds chunking st ds_derived_vars derived_variables

/-! ### Dataset well-formedness

Variable and coordinate names of an xarray dataset are unique across both
mappings; this invariant of every dataset produced by the excluded loading
collaborator is what the lookup lemmas below rely on. -/

def dsWF (ds : Dataset) : Prop :=
  (alKeys ds.data_vars ++ alKeys ds.coords).Nodup

instance (ds : Dataset) : Decidable (dsWF ds) := by
  unfold dsWF; infer_instance

/-- The contents of `ds[n]`, when the lookup succeeds. -/
def varData (ds : Dataset) (n : String) : Option Graph :=
  match ds.getVar n with
  | .ok a => some a.data
  | .error _ => none

/-! ### Concrete fixtures -/

def exOk {e a : Type} : Except e a → Bool
  | .ok _ => true
  | .error _ => false

def env0 : PyEnv := { modules := [] }

def st0 : PyState := { sysModules := [], warnings := [] }

/-- 1-D `altitude` coordinate, carried by an index. -/
def altArr : DataArray :=
  { name := some "altitude", dims := ["altitude"], shape := [3]
    data := .leaf [some 100, some 50, some 25]
    attrs := [("units", some "m"), ("long_name", some "height above ground")]
    chunks := [] }

/-- A dataset whose only content is the indexed `altitude` coordinate. -/
def dsA : Dataset :=
  { data_vars := [], coords := [("altitude", altArr)], indexes := ["altitude"]
    attrs := [("src", some "danra")] }

/-- A spec binding the `altitude` coordinate to the `time` parameter of
`calculate_hour_of_day`: `altitude` is then a required coordinate subject to the
chunk plan. -/
def dvHourAlt : DerivedVariable :=
  { kwargs := [("altitude", "time")], function := "calculate_hour_of_day"
    attributes := [] }

/-! ### Association-list lemmas -/

theorem alGet_alSet_self {α : Type} (l : AList α) (k : String) (v : α) :
    alGet (alSet l k v) k = some v := by
  induction l with
  | nil => simp [alSet, alGet]
  | cons p rest ih =>
    by_cases h : p.1 = k
    · simp [alSet, h, alGet]
    · simp [alSet, h, alGet, ih]

theorem alGet_alSet_ne {α : Type} (l : AList α) (k n : String) (v : α)
    (h : n ≠ k) : alGet (alSet l k v) n = alGet l n := by
  induction l with
  | nil => simp [alSet, alGet, Ne.symm h]
  | cons p rest ih =>
    by_cases hk : p.1 = k
    · have hn : p.1 ≠ n := by rw [hk]; exact Ne.symm h
      rw [show alSet (p :: rest) k v = (p.1, v) :: rest from by simp [alSet, hk]]
      simp [alGet, hn]
    · rw [show alSet (p :: rest) k v = p :: alSet rest k v from by simp [alSet, hk]]
      by_cases hn : p.1 = n
      · simp [alGet, hn]
      · simp [alGet, hn, ih]

theorem alGet_alErase_ne {α : Type} (l : AList α) (k n : String)
    (h : n ≠ k) : alGet (alErase l k) n = alGet l n := by
  induction l with
  | nil => rfl
  | cons p rest ih =>
    by_cases hk : p.1 = k
    · have hn : p.1 ≠ n := by rw [hk]; exact Ne.symm h
      rw [show alErase (p :: rest) k = alErase rest k from by
        simp [alErase, List.filter_cons, hk]]
      rw [ih]
      simp [alGet, hn]
    · rw [show alErase (p :: rest) k = p :: alErase rest k from by
        simp [alErase, List.filter_cons, hk]]
      by_cases hn : p.1 = n
      · simp [alGet, hn]
      · simp [alGet, hn, ih]

theorem mem_of_alGet_some {α : Type} {l : AList α} {n : String} {a : α}
    (h : alGet l n = some a) : (n, a) ∈ l := by
  induction l with
  | nil => simp [alGet] at h
  | cons p rest ih =>
    rcases p with ⟨k, v⟩
    by_cases hk : k = n
    · subst hk
      simp only [alGet, if_pos rfl] at h
      have hv := Option.some.inj h
      subst hv
      exact List.mem_cons_self _ _
    · simp only [alGet, if_neg hk] at h
      exact List.mem_cons_of_mem _ (ih h)

theorem alGet_eq_none_of_not_mem_keys {α : Type} {l : AList α} {n : String}
    (h : n ∉ alKeys l) : alGet l n = none := by
  induction l with
  | nil => rfl
  | cons p rest ih =>
    simp only [alKeys, List.map_cons, List.mem_cons, not_or] at h
    have h1 : p.1 ≠ n := fun hh => h.1 hh.symm
    simp [alGet, h1, ih (by simpa [alKeys] using h.2)]

theorem alGet_of_mem_of_nodup {α : Type} {l : AList α} {n : String} {a : α}
    (hmem : (n, a) ∈ l) (hnd : (alKeys l).Nodup) : alGet l n = some a := by
  induction l with
  | nil => simp at hmem
  | cons p rest ih =>
    simp only [alKeys, List.map_cons, List.nodup_cons] at hnd
    rcases List.mem_cons.mp hmem with h | h
    · subst h
      simp [alGet]
    · have hne : p.1 ≠ n := by
        intro hh
        exact hnd.1 (hh ▸ (List.mem_map.mpr ⟨(n, a), h, rfl⟩))
      simp [alGet, hne, ih h hnd.2]

theorem alGet_map_val {α β : Type} (l : AList α) (g : String → α → β) (n : String) :
    alGet (l.map (fun p => (p.1, g p.1 p.2))) n = (alGet l n).map (g n) := by
  induction l with
  | nil => rfl
  | cons p rest ih =>
    by_cases hk : p.1 = n
    · subst hk
      simp [alGet]
    · simp [alGet, hk, ih]

/-! ### The attribute validator: structural lemmas -/

theorem checkAttrStep_name {field f' : DataArray} {fa : AList String}
    {a : String} (h : (checkAttrStep field fa a).1 = .ok f') :
    f'.name = field.name := by
  unfold checkAttrStep at h
  rcases hg : alGet field.attrs a with _ | v
  · rcases hf : alGet fa a with _ | w <;> simp [hg, hf] at h <;> simp [← h]
  · rcases v with _ | old
    · rcases hf : alGet fa a with _ | w <;> simp [hg, hf] at h <;> simp [← h]
    · rcases hf : alGet fa a with _ | w <;> simp [hg, hf] at h <;> simp [← h]

/-- A required attribute is absent from the array's attrs or explicitly null
(the `attribute not in field.attrs or field.attrs[attribute] is None` test). -/
def attrMissingOrNull (f : DataArray) (a : String) : Prop :=
  alGet f.attrs a = none ∨ alGet f.attrs a = some none

instance (f : DataArray) (a : String) : Decidable (attrMissingOrNull f a) := by
  unfold attrMissingOrNull; infer_instance

theorem checkAttrStep_missing_nofb {f : DataArray} {fa : AList String} {b : String}
    (hm : attrMissingOrNull f b) (hfb : alGet fa b = none) :
    checkAttrStep f fa b = (.error (.valueErrorMissingAttr b f.name), []) := by
  rcases hm with hm | hm <;> simp [checkAttrStep, hm, hfb]

theorem checkAttrStep_missing_fb {f : DataArray} {fa : AList String} {b v : String}
    (hm : attrMissingOrNull f b) (hfb : alGet fa b = some v) :
    checkAttrStep f fa b = (.ok { f with attrs := alSet f.attrs b (some v) }, []) := by
  rcases hm with hm | hm <;> simp [checkAttrStep, hm, hfb]

theorem checkAttrStep_present_fb {f : DataArray} {fa : AList String} {b old v : String}
    (hp : alGet f.attrs b = some (some old)) (hfb : alGet fa b = some v) :
    checkAttrStep f fa b =
      (.ok { f with attrs := alSet f.attrs b (some v) },
       [.attrOverwrite b f.name old v]) := by
  simp [checkAttrStep, hp, hfb]

theorem checkAttrStep_present_nofb {f : DataArray} {fa : AList String} {b old : String}
    (hp : alGet f.attrs b = some (some old)) (hfb : alGet fa b = none) :
    checkAttrStep f fa b = (.ok f, []) := by
  simp [checkAttrStep, hp, hfb]

theorem checkAttrStep_error_inv {f : DataArray} {fa : AList String} {b : String}
    {e : Err} (h : (checkAttrStep f fa b).1 = .error e) :
    attrMissingOrNull f b ∧ alGet fa b = none ∧
      e = .valueErrorMissingAttr b f.name := by
  unfold checkAttrStep at h
  rcases hg : alGet f.attrs b with _ | v
  · rcases hf : alGet fa b with _ | w <;> simp [hg, hf] at h <;>
      exact ⟨Or.inl hg, rfl, h.symm⟩
  · rcases v with _ | old
    · rcases hf : alGet fa b with _ | w <;> simp [hg, hf] at h <;>
        exact ⟨Or.inr hg, rfl, h.symm⟩
    · rcases hf : alGet fa b with _ | w <;> simp [hg, hf] at h

theorem checkAttrStep_ok_other {f f' : DataArray} {fa : AList String} {b c : String}
    (h : (checkAttrStep f fa b).1 = .ok f') (hne : c ≠ b) :
    alGet f'.attrs c = alGet f.attrs c := by
  unfold checkAttrStep at h
  rcases hg : alGet f.attrs b with _ | v
  · rcases hf : alGet fa b with _ | w <;> simp [hg, hf] at h
    rw [← h]
    exact alGet_alSet_ne _ _ _ _ hne
  · rcases v with _ | old
    · rcases hf : alGet fa b with _ | w <;> simp [hg, hf] at h
      rw [← h]
      exact alGet_alSet_ne _ _ _ _ hne
    · rcases hf : alGet fa b with _ | w
      · simp [hg, hf] at h
        rw [← h]
      · simp [hg, hf] at h
        rw [← h]
        exact alGet_alSet_ne _ _ _ _ hne

theorem checkAttrStep_ok_fb {f f' : DataArray} {fa : AList String} {b v : String}
    (h : (checkAttrStep f fa b).1 = .ok f') (hfb : alGet fa b = some v) :
    alGet f'.attrs b = some (some v) := by
  unfold checkAttrStep at h
  rcases hg : alGet f.attrs b with _ | w
  · simp [hg, hfb] at h
    rw [← h]
    exact alGet_alSet_self _ _ _
  · rcases w with _ | old <;> simp [hg, hfb] at h <;> rw [← h] <;>
      exact alGet_alSet_self _ _ _

theorem checkAttrStep_ok_nofb {f f' : DataArray} {fa : AList String} {b : String}
    (h : (checkAttrStep f fa b).1 = .ok f') (hfb : alGet fa b = none) :
    alGet f'.attrs b = alGet f.attrs b := by
  unfold checkAttrStep at h
  rcases hg : alGet f.attrs b with _ | w
  · simp [hg, hfb] at h
  · rcases w with _ | old
    · simp [hg, hfb] at h
    · simp [hg, hfb] at h
      subst h
      exact hg

theorem check_attributes_eq (field : DataArray) (fa : AList String) :
    _check_attributes field fa =
      match (checkAttrStep field fa "units").1 with
      | .error e => (.error e, (checkAttrStep field fa "units").2)
      | .ok f1 =>
        ((checkAttrStep f1 fa "long_name").1,
          (checkAttrStep field fa "units").2 ++ (checkAttrStep f1 fa "long_name").2) := by
  unfold _check_attributes reqAttrs
  rcases h : (checkAttrStep field fa "units") with ⟨r, w⟩
  rcases r with e | f1 <;> simp [List.foldl, h]

/-! ### Claims C2 and C3: the attribute contract -/

/-- C2.  For every produced array and every required attribute (`units`,
`long_name`): if the array's attribute is missing or null and the spec's
fallback mapping does not define it either, the validator fails with the
missing-attribute error (the `MissingAttributeError` kind) naming a required
attribute that is missing and unfallbacked, together with the array's name;
if the fallback defines it, the fallback value is adopted onto the array. -/
theorem C2_missing_attribute (f : DataArray) (fb : AList String) (a : String)
    (ha : a ∈ reqAttrs) (hm : attrMissingOrNull f a) :
    (alGet fb a = none →
      ∃ b, b ∈ reqAttrs ∧ attrMissingOrNull f b ∧ alGet fb b = none ∧
        (_check_attributes f fb).1 = .error (.valueErrorMissingAttr b f.name)) ∧
    (∀ v, alGet fb a = some v → ∀ f', (_check_attributes f fb).1 = .ok f' →
      alGet f'.attrs a = some (some v)) := by
  have hca := check_attributes_eq f fb
  simp only [reqAttrs, List.mem_cons, List.mem_singleton] at ha
  rcases ha with rfl | ha
  · -- a = "units"
    constructor
    · intro hfb
      refine ⟨"units", by simp [reqAttrs], hm, hfb, ?_⟩
      rw [hca, checkAttrStep_missing_nofb hm hfb]
    · intro v hfb f' hok
      rw [hca] at hok
      rcases h1 : (checkAttrStep f fb "units").1 with e | f1
      · simp [h1] at hok
      · simp [h1] at hok
        have hu : alGet f1.attrs "units" = some (some v) := checkAttrStep_ok_fb h1 hfb
        have := checkAttrStep_ok_other hok (show "units" ≠ "long_name" by decide)
        rw [this, hu]
  · rcases ha with rfl | ha
    · -- a = "long_name"
      constructor
      · intro hfb
        rcases h1 : (checkAttrStep f fb "units").1 with e | f1
        · rcases checkAttrStep_error_inv h1 with ⟨hmu, hfbu, he⟩
          refine ⟨"units", by simp [reqAttrs], hmu, hfbu, ?_⟩
          rw [hca, (Prod.ext_iff.mp (rfl :
            checkAttrStep f fb "units" = checkAttrStep f fb "units")).1] at *
          rw [hca]
          rcases hstep : checkAttrStep f fb "units" with ⟨r, w⟩
          have : r = .error e := by rw [← h1, hstep]
          subst this
          simp [he]
        · have hname : f1.name = f.name := checkAttrStep_name h1
          have hpres : alGet f1.attrs "long_name" = alGet f.attrs "long_name" :=
            checkAttrStep_ok_other h1 (by decide)
          have hm1 : attrMissingOrNull f1 "long_name" := by
            rcases hm with hm | hm
            · exact Or.inl (hpres.trans hm)
            · exact Or.inr (hpres.trans hm)
          refine ⟨"long_name", by simp [reqAttrs], hm, hfb, ?_⟩
          rw [hca]
          rcases hstep : checkAttrStep f fb "units" with ⟨r, w⟩
          have : r = .ok f1 := by rw [← h1, hstep]
          subst this
          simp [checkAttrStep_missing_nofb hm1 hfb, hname]
      · intro v hfb f' hok
        rw [hca] at hok
        rcases h1 : (checkAttrStep f fb "units").1 with e | f1
        · simp [h1] at hok
        · simp [h1] at hok
          exact checkAttrStep_ok_fb hok hfb
    · simp at ha

/-- C3.  For every produced array that already carries a non-null value of a
required attribute while the spec's fallback mapping also defines it, the
fallback overwrites the array's value in the validator's output and the
overwrite warning (old value, new value) is logged; if the fallback mapping
does not define the attribute, the existing value is kept unchanged. -/
theorem C3_fallback_overwrites (f : DataArray) (fb : AList String)
    (a old : String) (ha : a ∈ reqAttrs)
    (hv : alGet f.attrs a = some (some old)) :
    (∀ v, alGet fb a = some v →
      ∀ f', (_check_attributes f fb).1 = .ok f' →
        alGet f'.attrs a = some (some v) ∧
          Warn.attrOverwrite a f.name old v ∈ (_check_attributes f fb).2) ∧
    (alGet fb a = none →
      ∀ f', (_check_attributes f fb).1 = .ok f' →
        alGet f'.attrs a = some (some old)) := by
  have hca := check_attributes_eq f fb
  simp only [reqAttrs, List.mem_cons, List.mem_singleton] at ha
  rcases ha with rfl | ha
  · -- a = "units"
    constructor
    · intro v hfb f' hok
      have hstep := checkAttrStep_present_fb hv hfb
      rw [hca] at hok ⊢
      rw [hstep] at hok ⊢
      simp only [] at hok ⊢
      constructor
      · have := checkAttrStep_ok_other hok (show "units" ≠ "long_name" by decide)
        rw [this]
        simp only []
        exact alGet_alSet_self _ _ _
      · rcases h2 : (checkAttrStep { f with attrs := alSet f.attrs "units" (some v) }
          fb "long_name").1 with e2 | f2
        · rw [h2] at hok
          simp at hok
        · simp
    · intro hfb f' hok
      have hstep := checkAttrStep_present_nofb hv hfb
      rw [hca, hstep] at hok
      simp only [] at hok
      have := checkAttrStep_ok_other hok (show "units" ≠ "long_name" by decide)
      rw [this, hv]
  · rcases ha with rfl | ha
    · -- a = "long_name"
      constructor
      · intro v hfb f' hok
        rw [hca] at hok ⊢
        rcases h1 : (checkAttrStep f fb "units").1 with e | f1
        · simp [h1] at hok
        · have hname : f1.name = f.name := checkAttrStep_name h1
          have hpres : alGet f1.attrs "long_name" = alGet f.attrs "long_name" :=
            checkAttrStep_ok_other h1 (by decide)
          have hstep := checkAttrStep_present_fb (hpres.trans hv) hfb
          simp only [h1] at hok ⊢
          rw [hstep] at hok ⊢
          dsimp only at hok ⊢
          constructor
          · injection hok with h2
            subst h2
            dsimp only
            exact alGet_alSet_self _ _ _
          · rw [hname]
            simp
      · intro hfb f' hok
        rw [hca] at hok
        rcases h1 : (checkAttrStep f fb "units").1 with e | f1
        · simp [h1] at hok
        · simp [h1] at hok
          have hpres : alGet f1.attrs "long_name" = alGet f.attrs "long_name" :=
            checkAttrStep_ok_other h1 (by decide)
          rw [checkAttrStep_ok_nofb hok hfb, hpres, hv]
    · simp at ha

/-- Witness for C2: a field with `units = "K"` set but no `long_name`, and an
empty fallback mapping — the validator fails with the missing-attribute error
naming `long_name` and the field; with a fallback for `long_name`, the
fallback is adopted. -/
def c2field : DataArray :=
  { name := some "toa_radiation", dims := ["time"], shape := [2]
    data := .leaf [some 1, some 2], attrs := [("units", some "K")], chunks := [] }

def c2out : Except Err DataArray × List Warn :=
  _check_attributes c2field []

def c2outFb : Except Err DataArray × List Warn :=
  _check_attributes c2field [("long_name", "TOA radiation")]

def c2resFb : DataArray :=
  match c2outFb.1 with
  | .ok r => r
  | .error _ => c2field

theorem C2_missing_attribute_witness :
    (_check_attributes c2field []).1 =
      .error (.valueErrorMissingAttr "long_name" (some "toa_radiation")) ∧
    alGet c2resFb.attrs "long_name" = some (some "TOA radiation") := by
  constructor
  · rcases (C2_missing_attribute c2field [] "long_name" (by decide) (by decide)).1
      rfl with ⟨b, hb, hmb, hfbb, herr⟩
    have hbval : b = "long_name" := by
      simp only [reqAttrs, List.mem_cons, List.mem_singleton] at hb
      rcases hb with rfl | hb
      · exact absurd (by decide : ¬ attrMissingOrNull c2field "units") (by simp [hmb])
      · simpa using hb
    rw [hbval] at herr
    exact herr
  · exact (C2_missing_attribute c2field [("long_name", "TOA radiation")] "long_name"
      (by decide) (by decide)).2 "TOA radiation" (by decide) c2resFb (by decide)

/-- Witness for C3: computation sets `units = "K"`, the config fallback says
`units = "degC"` — the output carries `"degC"` and the overwrite warning is
logged; with no fallback the `"K"` survives. -/
def c3field : DataArray :=
  { name := some "t2m_derived", dims := ["time"], shape := [2]
    data := .leaf [some 280, some 281]
    attrs := [("units", some "K"), ("long_name", some "2m temperature")], chunks := [] }

def c3fb : AList String := [("units", "degC")]

def c3out : Except Err DataArray × List Warn := _check_attributes c3field c3fb

def c3res : DataArray :=
  match c3out.1 with
  | .ok r => r
  | .error _ => c3field

def c3outNofb : Except Err DataArray × List Warn := _check_attributes c3field []

def c3resNofb : DataArray :=
  match c3outNofb.1 with
  | .ok r => r
  | .error _ => c3field

theorem C3_fallback_overwrites_witness :
    (alGet c3res.attrs "units" = some (some "degC") ∧
      Warn.attrOverwrite "units" (some "t2m_derived") "K" "degC" ∈ c3out.2) ∧
    alGet c3resNofb.attrs "units" = some (some "K") := by
  constructor
  · exact (C3_fallback_overwrites c3field c3fb "units" "K" (by decide) (by decide)).1
      "degC" (by decide) c3res (by decide)
  · exact (C3_fallback_overwrites c3field [] "units" "K" (by decide) (by decide)).2
      (by decide) c3resNofb (by decide)

/-! ### Claims C5 and C6: the chunk plan -/

theorem alGet_isSome_of_mem_keys {α : Type} {l : AList α} {n : String}
    (h : n ∈ alKeys l) : (alGet l n).isSome := by
  induction l with
  | nil => simp [alKeys] at h
  | cons p rest ih =>
    by_cases hk : p.1 = n
    · simp [alGet, hk]
    · simp only [alKeys, List.map_cons, List.mem_cons] at h
      rcases h with h | h
      · exact absurd h.symm hk
      · simp [alGet, hk, ih h]

theorem buildChunksGo_spec (ds : Dataset) (ch : AList Nat) (l : List String)
    (plan : AList Nat) (h : buildChunksGo ds ch l = .ok plan) :
    alKeys plan = l ∧
    ∀ d ∈ l,
      (∀ c, alGet ch d = some c → alGet plan d = some c) ∧
      (alGet ch d = none →
        ∃ a, ds.getVar d = .ok a ∧ alGet plan d = some (graphCount a.data)) := by
  induction l generalizing plan with
  | nil =>
    simp only [buildChunksGo] at h
    injection h with h
    subst h
    exact ⟨rfl, by simp⟩
  | cons dim rest ih =>
    unfold buildChunksGo at h
    rcases hch : alGet ch dim with _ | c
    · rcases hv : ds.getVar dim with e | a
      · simp [hch, hv, Except.map] at h
      · simp only [hch, hv, Except.map] at h
        rcases hrest : buildChunksGo ds ch rest with e | restPlan
        · simp [hrest] at h
        · simp only [hrest] at h
          injection h with h
          subst h
          rcases ih restPlan hrest with ⟨hkeys, hall⟩
          refine ⟨by simpa [alKeys] using hkeys, ?_⟩
          intro d hd
          by_cases hdd : d = dim
          · subst hdd
            constructor
            · intro c hc
              rw [hch] at hc
              cases hc
            · intro _
              exact ⟨a, hv, by simp [alGet]⟩
          · rcases List.mem_cons.mp hd with h' | h'
            · exact absurd h' hdd
            · have hne : dim ≠ d := fun hh => hdd hh.symm
              rcases hall d h' with ⟨h1, h2⟩
              constructor
              · intro c hc
                rw [show alGet ((dim, graphCount a.data) :: restPlan) d =
                  alGet restPlan d from by simp [alGet, hne]]
                exact h1 c hc
              · intro hc
                rcases h2 hc with ⟨a2, ha2, hp2⟩
                exact ⟨a2, ha2, by simpa [alGet, hne] using hp2⟩
    · simp only [hch] at h
      rcases hrest : buildChunksGo ds ch rest with e | restPlan
      · simp [hrest, Except.map] at h
      · simp only [hrest, Except.map] at h
        injection h with h
        subst h
        rcases ih restPlan hrest with ⟨hkeys, hall⟩
        refine ⟨by simpa [alKeys] using hkeys, ?_⟩
        intro d hd
        by_cases hdd : d = dim
        · subst hdd
          constructor
          · intro c2 hc2
            rw [hc2] at hch
            injection hch with hch
            subst hch
            simp [alGet]
          · intro hc
            rw [hc] at hch
            cases hch
        · rcases List.mem_cons.mp hd with h' | h'
          · exact absurd h' hdd
          · have hne : dim ≠ d := fun hh => hdd hh.symm
            rcases hall d h' with ⟨h1, h2⟩
            constructor
            · intro c2 hc2
              rw [show alGet ((dim, c) :: restPlan) d = alGet restPlan d from by
                simp [alGet, hne]]
              exact h1 c2 hc2
            · intro hc
              rcases h2 hc with ⟨a2, ha2, hp2⟩
              exact ⟨a2, ha2, by simpa [alGet, hne] using hp2⟩

theorem graphCount_leaf_all_some {vals : List (Option Int)}
    (h : vals.all Option.isSome = true) :
    graphCount (.leaf vals) = vals.length := by
  show (vals.filter Option.isSome).length = vals.length
  rw [List.filter_eq_self.mpr (fun a ha => List.all_eq_true.mp h a ha)]

/-- C5, counterexample input: a subset whose `x` coordinate has one null
element. -/
def xNullArr : DataArray :=
  { name := some "x", dims := ["x"], shape := [3]
    data := .leaf [some 1, none, some 3], attrs := [], chunks := [] }

def dsX : Dataset :=
  { data_vars := [], coords := [("x", xNullArr)], indexes := ["x"], attrs := [] }

/-- C5, counterexample: dimension `x` of the subset has full size 3 and is not
named by the (empty) override, yet the plan built by lines 51-53 maps it to 2
— the non-null element count — not to the full size the claim requires. -/
theorem C5_count_not_size_counterexample :
    alGet dsX.sizes "x" = some 3 ∧ alGet ([] : AList Nat) "x" = none ∧
      buildChunks dsX [] = .ok [("x", 2)] := by
  refine ⟨by decide, rfl, by decide⟩

/-- C5, amended.  The plan covers exactly the subset's dimensions; a dimension
named by the override gets the override value; an unnamed dimension gets the
non-null element count of the subset's same-named array — which coincides with
the dimension's full size exactly when that array is a concrete fully-non-null
leaf whose length is the dimension's size. -/
theorem C5_chunk_plan_amended (ds : Dataset) (ch : AList Nat) (plan : AList Nat)
    (h : buildChunks ds ch = .ok plan) :
    alKeys plan = alKeys ds.sizes ∧
    ∀ d ∈ alKeys ds.sizes,
      (∀ c, alGet ch d = some c → alGet plan d = some c) ∧
      (alGet ch d = none →
        ∃ a, ds.getVar d = .ok a ∧ alGet plan d = some (graphCount a.data)) ∧
      (alGet ch d = none → ∀ a vals, ds.getVar d = .ok a → a.data = .leaf vals →
        vals.all Option.isSome = true → alGet ds.sizes d = some vals.length →
        alGet plan d = alGet ds.sizes d) := by
  rcases buildChunksGo_spec ds ch (alKeys ds.sizes) plan h with ⟨hkeys, hall⟩
  refine ⟨hkeys, fun d hd => ?_⟩
  rcases hall d hd with ⟨h1, h2⟩
  refine ⟨h1, h2, ?_⟩
  intro hc a vals ha hleaf hsome hsize
  rcases h2 hc with ⟨a2, ha2, hp2⟩
  rw [ha] at ha2
  injection ha2 with ha2
  subst ha2
  rw [hp2, hsize, hleaf, graphCount_leaf_all_some hsome]

/-- Witness for the amended C5 at concrete inputs: for `dsX` the unspecified
dimension `x` gets the count of its same-named coordinate, and for `dsA`
(fully non-null `altitude` of length 3) the default equals the full size. -/
theorem C5_chunk_plan_amended_witness :
    (alKeys [("x", 2)] = alKeys dsX.sizes ∧
      ∃ a, dsX.getVar "x" = .ok a ∧ alGet [("x", 2)] "x" = some (graphCount a.data)) ∧
    alGet [("altitude", 3)] "altitude" = alGet dsA.sizes "altitude" := by
  constructor
  · have h := C5_chunk_plan_amended dsX [] [("x", 2)] (by decide)
    exact ⟨h.1, ((h.2 "x" (by decide)).2.1 rfl)⟩
  · have h := C5_chunk_plan_amended dsA [] [("altitude", 3)] (by decide)
    exact (h.2 "altitude" (by decide)).2.2 rfl altArr [some 100, some 50, some 25]
      (by decide) (by decide) (by decide) (by decide)

/-- C6, counterexample: an override naming dimension `zz`, absent from the
spec's input subset (whose only dimension is `altitude`), does not make
`derive_variables` fail — the run succeeds, silently ignoring `zz`. -/
theorem C6_unknown_dim_counterexample :
    exOk (derive_variables env0 dsA [("my_hour", dvHourAlt)] [("zz", 7)] st0).1
      = true := by decide

/-- C6, amended.  A dimension named in the override but absent from the subset
is silently ignored: the plan built by lines 51-53 is unchanged if the entry
is dropped, and never contains the unknown dimension — so the `KeyError`
branch of `_chunk_dataset` can never fire on a plan `derive_variables`
builds. -/
theorem C6_unknown_dim_ignored (ds : Dataset) (ch : AList Nat) (d : String)
    (hd : alHas ds.sizes d = false) :
    buildChunks ds ch = buildChunks ds (alErase ch d) ∧
    ∀ plan, buildChunks ds ch = .ok plan → alGet plan d = none := by
  have hdmem : d ∉ alKeys ds.sizes := by
    intro hmem
    have := alGet_isSome_of_mem_keys hmem
    simp [alHas] at hd
    simp [hd] at this
  constructor
  · unfold buildChunks
    generalize alKeys ds.sizes = l at hdmem
    induction l with
    | nil => rfl
    | cons dim rest ih =>
      simp only [List.mem_cons, not_or] at hdmem
      have hne : dim ≠ d := fun hh => hdmem.1 hh.symm
      unfold buildChunksGo
      rw [alGet_alErase_ne ch d dim hne, ih hdmem.2]
  · intro plan hplan
    rcases buildChunksGo_spec ds ch (alKeys ds.sizes) plan hplan with ⟨hkeys, _⟩
    exact alGet_eq_none_of_not_mem_keys (hkeys ▸ hdmem)

def c6plan : AList Nat :=
  match buildChunks dsA [("zz", 7)] with
  | .ok p => p
  | .error _ => []

/-- Witness for the amended C6 at a concrete input. -/
theorem C6_unknown_dim_ignored_witness :
    buildChunks dsA [("zz", 7)] = buildChunks dsA (alErase [("zz", 7)] "zz") ∧
    alGet c6plan "zz" = none := by
  have h := C6_unknown_dim_ignored dsA [("zz", 7)] "zz" (by decide)
  exact ⟨h.1, h.2 c6plan (by decide)⟩

/-! ### Claim C1: spec mutation across calls -/

def latArr : DataArray :=
  { name := some "lat", dims := ["x", "y"], shape := [1, 1]
    data := .leaf [some 55], attrs := [], chunks := [] }

def lonArr : DataArray :=
  { name := some "lon", dims := ["x", "y"], shape := [1, 1]
    data := .leaf [some 10], attrs := [], chunks := [] }

def timeArr : DataArray :=
  { name := some "time", dims := ["time"], shape := [2]
    data := .leaf [some 0, some 1], attrs := [], chunks := [] }

/-- A dataset with `lat`/`lon` 2-D coordinates and an indexed `time`. -/
def dsT : Dataset :=
  { data_vars := [], coords := [("lat", latArr), ("lon", lonArr), ("time", timeArr)]
    indexes := ["time"], attrs := [] }

/-- The TOA-radiation spec of the repository's test configuration: binds the
`lat`/`lon` aliases and the `time` coordinate. -/
def dvToa : DerivedVariable :=
  { kwargs := [("lat", "lat"), ("lon", "lon"), ("time", "time")]
    function := "calculate_toa_radiation", attributes := [] }

def c1run : Except Err Dataset × PyState × List (String × DerivedVariable) :=
  derive_variables env0 dsT [("toa_radiation", dvToa)] [] st0

/-- C1 fails on the code: the first `derive_variables` call succeeds but POPS
the `lat`/`lon` keys out of the spec's own kwargs dict (lines 41-43 mutate
`derived_variable.kwargs` in place, no copy).  A second call with the same
(now mutated) spec objects and identical dataset and chunking then raises
`TypeError` — `calculate_toa_radiation` is missing its `lat`/`lon` arguments —
instead of returning a dataset identical to the first call's. -/
theorem C1_spec_kwargs_mutated :
    exOk c1run.1 = true ∧
    c1run.2.2 = [("toa_radiation",
      { kwargs := [("time", "time")], function := "calculate_toa_radiation"
        attributes := [] })] ∧
    c1run.2.2 ≠ [("toa_radiation", dvToa)] ∧
    (derive_variables env0 dsT c1run.2.2 [] st0).1 =
      .error (.typeErrorBadArgs "calculate_toa_radiation" ["time"]) := by
  refine ⟨by decide, by decide, by decide, by decide⟩

/-! ### Claim C8: reuse of an already-loaded module -/

/-- An external world with one importable module `physmod` providing a
function attribute `calc_q`. -/
def env8 : PyEnv :=
  { modules := [("physmod", [("calc_q", .pyFn (.extFn "physmod" "calc_q"))])] }

def st8 : PyState := { sysModules := ["physmod"], warnings := [] }

/-- C8 fails on the code: with `physmod` already in `sys.modules`, the
already-imported branch binds `module = module_name` — the STRING — so the
subsequent `getattr(module, "calc_q")` raises `AttributeError` on `str`
instead of returning the loaded module's attribute; with a cold cache the
same reference resolves to the module's function.  The resolver therefore
does not reuse the loaded module instance as the spec claims. -/
theorem C8_cached_module_is_string_bug :
    (_get_derived_variable_function env8 st8 "physmod.calc_q").1 =
      .error (.attributeError "str" "calc_q") ∧
    (_get_derived_variable_function env8 st0 "physmod.calc_q").1 =
      .ok (.pyFn (.extFn "physmod" "calc_q")) := by
  refine ⟨by decide, by decide⟩

/-! ### Claim C9: own-namespace reference with an unknown leaf -/

/-- C9 counterexample: resolving
`mllam_data_prep.derived_variables.nonexistent_fn` — the engine's own
namespace with an unknown leaf — does NOT fail with an
`UnresolvedFunctionError`-kind error: `globals().get` returns `None` and the
resolver returns it (`Except.ok PyObj.pyNone`), a non-callable value. -/
theorem C9_own_namespace_none_counterexample :
    (_get_derived_variable_function env0 st0
      "mllam_data_prep.derived_variables.nonexistent_fn").1 = .ok .pyNone := by
  decide

/-- C9, amended.  For a dotted reference whose module part equals the engine's
namespace and whose leaf is not among the module's globals, resolution
returns Python `None` without raising (lines 176-177 use `globals().get` with
no check); the failure then surfaces only at the call, as a
`TypeError` (NoneType is not callable) that does not name the
reference. -/
theorem C9_own_namespace_returns_none (fn : String) (kwargs : AList DataArray)
    (h : alGet moduleGlobals fn = none) :
    resolveInNamespace fn = .pyNone ∧
    callObj .pyNone kwargs = .error .typeErrorNotCallable ∧
    (_get_derived_variable_function env0 st0
      ("mllam_data_prep.derived_variables.nonexistent_fn")).1 = .ok .pyNone := by
  refine ⟨?_, rfl, by decide⟩
  unfold resolveInNamespace
  rw [h]
  rfl

/-- Witness for the amended C9 at a concrete leaf and call. -/
theorem C9_own_namespace_returns_none_witness :
    resolveInNamespace "nonexistent_fn" = .pyNone ∧
    callObj .pyNone [("time", timeArr)] = .error .typeErrorNotCallable ∧
    (_get_derived_variable_function env0 st0
      ("mllam_data_prep.derived_variables.nonexistent_fn")).1 = .ok .pyNone :=
  C9_own_namespace_returns_none "nonexistent_fn" [("time", timeArr)] (by decide)

/-! ### Claim C10: duplicate output names, last write wins -/

def time2Arr : DataArray :=
  { name := some "time2", dims := ["time2"], shape := [2]
    data := .leaf [some 5, some 6], attrs := [], chunks := [] }

def dsT2 : Dataset :=
  { data_vars := []
    coords := [("lat", latArr), ("lon", lonArr), ("time", timeArr), ("time2", time2Arr)]
    indexes := ["time", "time2"], attrs := [] }

/-- A second TOA spec binding a different source (`time2`) to the `time`
parameter: it produces an output array with the SAME name `toa_radiation` but
different contents. -/
def dvToaB : DerivedVariable :=
  { kwargs := [("lat", "lat"), ("lon", "lon"), ("time2", "time")]
    function := "calculate_toa_radiation", attributes := [] }

def lookupToa (r : Except Err Dataset) : Option DataArray :=
  match r with
  | .ok d => alGet d.data_vars "toa_radiation"
  | .error _ => none

/-- C10.  Two specs, processed in declaration order, both producing an array
named `toa_radiation`: `derive_variables` does not fail, and the output's
single `toa_radiation` variable is the one produced by the later spec (it
equals the later-spec-only run's variable and differs from the earlier
spec's). -/
theorem C10_last_write_wins :
    exOk (derive_variables env0 dsT2 [("first", dvToa), ("second", dvToaB)] [] st0).1
      = true ∧
    lookupToa (derive_variables env0 dsT2 [("first", dvToa), ("second", dvToaB)] [] st0).1
      = lookupToa (derive_variables env0 dsT2 [("second", dvToaB)] [] st0).1 ∧
    lookupToa (derive_variables env0 dsT2 [("first", dvToa), ("second", dvToaB)] [] st0).1
      ≠ lookupToa (derive_variables env0 dsT2 [("first", dvToa)] [] st0).1 := by
  refine ⟨by decide, by decide, by decide⟩

/-! ### Claim C7: tuple-returning functions -/

/-- The array carries a non-null value for attribute `k`. -/
def attrSet (a : DataArray) (k : String) : Bool :=
  match alGet a.attrs k with
  | some (some _) => true
  | _ => false

theorem attrSet_of_exists {a : DataArray} {k : String}
    (h : ∃ v, alGet a.attrs k = some (some v)) : attrSet a k = true := by
  rcases h with ⟨v, hv⟩
  simp [attrSet, hv]

theorem checkAttrStep_ok_isSet {f f' : DataArray} {fa : AList String} {b : String}
    (h : (checkAttrStep f fa b).1 = .ok f') :
    ∃ v, alGet f'.attrs b = some (some v) := by
  unfold checkAttrStep at h
  rcases hg : alGet f.attrs b with _ | w
  · rcases hf : alGet fa b with _ | v
    · simp [hg, hf] at h
    · simp [hg, hf] at h
      exact ⟨v, by rw [← h]; exact alGet_alSet_self _ _ _⟩
  · rcases w with _ | old
    · rcases hf : alGet fa b with _ | v
      · simp [hg, hf] at h
      · simp [hg, hf] at h
        exact ⟨v, by rw [← h]; exact alGet_alSet_self _ _ _⟩
    · rcases hf : alGet fa b with _ | v
      · simp [hg, hf] at h
        subst h
        exact ⟨old, hg⟩
      · simp [hg, hf] at h
        exact ⟨v, by rw [← h]; exact alGet_alSet_self _ _ _⟩

theorem check_attributes_ok_inv {f f' : DataArray} {fa : AList String}
    (h : (_check_attributes f fa).1 = .ok f') :
    f'.name = f.name ∧
    (∃ v, alGet f'.attrs "units" = some (some v)) ∧
    (∃ v, alGet f'.attrs "long_name" = some (some v)) := by
  rw [check_attributes_eq] at h
  rcases h1 : (checkAttrStep f fa "units").1 with e | f1
  · simp [h1] at h
  · simp only [h1] at h
    have hname := (checkAttrStep_name h1).trans rfl
    have hunits := checkAttrStep_ok_isSet h1
    refine ⟨(checkAttrStep_name h).trans hname, ?_, checkAttrStep_ok_isSet h⟩
    rcases hunits with ⟨v, hv⟩
    exact ⟨v, (checkAttrStep_ok_other h (by decide)).trans hv⟩

theorem alKeys_filter_mem {α : Type} {l : AList α} {p : String × α → Bool}
    {x : String} (h : x ∈ alKeys (l.filter p)) : x ∈ alKeys l := by
  rcases List.mem_map.mp h with ⟨q, hq, hx⟩
  exact List.mem_map.mpr ⟨q, List.mem_of_mem_filter hq, hx⟩

theorem mem_filter_strings {l : List String} {p : String → Bool} {x : String}
    (h : x ∈ l.filter p) : x ∈ l :=
  List.mem_of_mem_filter h

theorem returnDroppedLoop_data_vars_not_mem {dsi : Dataset} {chunks : AList Nat}
    {rc : List String} {acc acc2 : Dataset} {n : String}
    (hn : n ∉ rc) (h : returnDroppedLoop dsi chunks rc acc = .ok acc2) :
    alGet acc2.data_vars n = alGet acc.data_vars n := by
  induction rc generalizing acc with
  | nil =>
    simp only [returnDroppedLoop] at h
    injection h with h
    subst h
    rfl
  | cons req rest ih =>
    simp only [List.mem_cons, not_or] at hn
    unfold returnDroppedLoop at h
    by_cases hc : alHas chunks req
    · rw [if_pos hc] at h
      rcases hv : dsi.getVar req with e | a
      · rw [hv] at h
        cases h
      · rw [hv] at h
        rw [ih hn.2 h]
        dsimp only
        exact alGet_alErase_ne _ _ _ (fun hh => hn.1 hh)
    · rw [if_neg hc] at h
      exact ih hn.2 h

theorem returnDroppedLoop_coords_not_mem {dsi : Dataset} {chunks : AList Nat}
    {rc : List String} {acc acc2 : Dataset} {n : String}
    (hn : n ∉ rc) (h : returnDroppedLoop dsi chunks rc acc = .ok acc2) :
    alGet acc2.coords n = alGet acc.coords n := by
  induction rc generalizing acc with
  | nil =>
    simp only [returnDroppedLoop] at h
    injection h with h
    subst h
    rfl
  | cons req rest ih =>
    simp only [List.mem_cons, not_or] at hn
    unfold returnDroppedLoop at h
    by_cases hc : alHas chunks req
    · rw [if_pos hc] at h
      rcases hv : dsi.getVar req with e | a
      · rw [hv] at h
        cases h
      · rw [hv] at h
        rw [ih hn.2 h]
        dsimp only
        exact alGet_alSet_ne _ _ _ _ (fun hh => hn.1 hh)
    · rw [if_neg hc] at h
      exact ih hn.2 h

/-- Inversion of a successful `prepare_inputs`: the required-coordinate list
is the filter of the popped kwargs' keys by coordinate membership in the
subset. -/
theorem prepare_inputs_rc_inv {ds : Dataset} {chunking : AList Nat}
    {dv : DerivedVariable} {dsi : Dataset} {chunks : AList Nat}
    {rc : List String} {kw : AList DataArray}
    (h : prepare_inputs ds chunking dv = .ok (dsi, chunks, rc, kw)) :
    ∃ ds0, selectVars ds (alKeys (popLatLon dv.kwargs).2) = .ok ds0 ∧
      rc = (alKeys (popLatLon dv.kwargs).2).filter (fun v => alHas ds0.coords v) := by
  unfold prepare_inputs at h
  rcases hsel : selectVars ds (alKeys (popLatLon dv.kwargs).2) with e | ds0
  · simp only [hsel] at h
    cases h
  · simp only [hsel] at h
    refine ⟨ds0, rfl, ?_⟩
    rcases hbc : buildChunks ds0 chunking with e | chunks0
    · simp only [hbc] at h
      cases h
    · simp only [hbc] at h
      rcases hrl : resetCoordsLoop chunks0
          ((alKeys (popLatLon dv.kwargs).2).filter (fun v => alHas ds0.coords v))
          (drop_indexes ds0
            ((alKeys (popLatLon dv.kwargs).2).filter (fun v => alHas ds0.coords v)))
          with e | ds2
      · simp only [hrl] at h
        cases h
      · simp only [hrl] at h
        rcases hcd : _chunk_dataset ds2 chunks0 with e | dsi0
        · simp only [hcd] at h
          cases h
        · simp only [hcd] at h
          rcases hk0 : (if !(popLatLon dv.kwargs).1.isEmpty then
              match get_latlon_coords_for_input ds with
              | .error e => Except.error e
              | .ok latlon => buildKwargsLoop latlon (popLatLon dv.kwargs).1 []
            else Except.ok ([] : AList DataArray)) with e | kwargs0
          · simp only [hk0] at h
            cases h
          · simp only [hk0] at h
            rcases hk1 : buildKwargsLoop dsi0 (popLatLon dv.kwargs).2 kwargs0
                with e | kwargs1
            · simp only [hk1] at h
              cases h
            · simp only [hk1] at h
              simp only [Except.ok.injEq, Prod.mk.injEq] at h
              exact h.2.2.1.symm

/-- Inversion of `callObj` for `calculate_hour_of_day`. -/
theorem callObj_hourOfDay_inv {kw : AList DataArray} {obj : PyObj}
    (h : callObj (.pyFn .hourOfDay) kw = .ok obj) :
    ∃ time, alGet kw "time" = some time ∧
      obj = .tup [(calculate_hour_of_day time).1, (calculate_hour_of_day time).2] := by
  unfold callObj at h
  by_cases hm : argsMatch (alKeys kw) ["time"]
  · rw [if_pos hm] at h
    rcases ht : alGet kw "time" with _ | time
    · rw [ht] at h
      cases h
    · rw [ht] at h
      injection h with h
      exact ⟨time, rfl, h.symm⟩
  · rw [if_neg hm] at h
    cases h

/-- Inversion of `_check_field` on a two-element tuple. -/
theorem check_field_pair_inv {c s : DataArray} {fa : AList String} {obj : PyObj}
    (h : (_check_field (.tup [c, s]) fa).1 = .ok obj) :
    ∃ c' s', obj = .tup [c', s'] ∧
      (_check_attributes c fa).1 = .ok c' ∧ (_check_attributes s fa).1 = .ok s' := by
  unfold _check_field at h
  rcases hc : _check_attributes c fa with ⟨rc2, wc⟩
  rcases rc2 with e | c'
  · simp [hc] at h
  · rcases hs : _check_attributes s fa with ⟨rs2, ws⟩
    rcases rs2 with e | s'
    · simp [hc, hs] at h
    · simp only [List.foldl, hc, hs] at h
      injection h with h
      exact ⟨c', s', h.symm, rfl, rfl⟩

theorem calculate_hour_of_day_names (time : DataArray) :
    (calculate_hour_of_day time).1.name = some "hour_of_day_cos" ∧
    (calculate_hour_of_day time).2.name = some "hour_of_day_sin" := ⟨rfl, rfl⟩

/-- C7.  For a spec whose function is the cyclic hour-of-day encoding — a
function returning a fixed two-element tuple of named arrays — a successful
run of the per-spec executor stores one output variable per returned array,
each under that array's own name (`hour_of_day_cos`, `hour_of_day_sin`), with
both required attributes validated and set.  (Hypotheses `hnc`/`hnk` say the
output names are not simultaneously coordinates of the accumulator or source
names of the spec, which would shadow/restore over them.) -/
theorem C7_tuple_outputs (env : PyEnv) (ds : Dataset) (chunking : AList Nat)
    (st : PyState) (acc : Dataset) (dv : DerivedVariable)
    (acc2 : Dataset) (st2 : PyState)
    (hfn : dv.function = "calculate_hour_of_day")
    (hnc1 : alHas acc.coords "hour_of_day_cos" = false)
    (hnc2 : alHas acc.coords "hour_of_day_sin" = false)
    (hnk1 : "hour_of_day_cos" ∉ alKeys dv.kwargs)
    (hnk2 : "hour_of_day_sin" ∉ alKeys dv.kwargs)
    (hrun : processDerivedVariable env ds chunking st acc dv = (.ok acc2, st2)) :
    ∃ c s, alGet acc2.data_vars "hour_of_day_cos" = some c ∧
      alGet acc2.data_vars "hour_of_day_sin" = some s ∧
      c.name = some "hour_of_day_cos" ∧ s.name = some "hour_of_day_sin" ∧
      attrSet c "units" = true ∧ attrSet c "long_name" = true ∧
      attrSet s "units" = true ∧ attrSet s "long_name" = true := by
  unfold processDerivedVariable at hrun
  rcases hprep : prepare_inputs ds chunking dv with e | res
  · rw [hprep] at hrun
    injection hrun with h1 h2
    cases h1
  · rcases res with ⟨dsi, chunks, rc, kw⟩
    rw [hprep] at hrun
    dsimp only at hrun
    have hres : _get_derived_variable_function env st dv.function =
        (.ok (.pyFn .hourOfDay), st) := by
      rw [hfn]
      rfl
    rw [hres] at hrun
    dsimp only at hrun
    rcases hcall : callObj (.pyFn .hourOfDay) kw with e | obj
    · rw [hcall] at hrun
      injection hrun with h1 h2
      cases h1
    · rw [hcall] at hrun
      dsimp only at hrun
      rcases callObj_hourOfDay_inv hcall with ⟨time, htime, hobj⟩
      subst hobj
      rcases hcf : _check_field
          (.tup [(calculate_hour_of_day time).1, (calculate_hour_of_day time).2])
          dv.attributes with ⟨rcf, wcf⟩
      rcases rcf with e | checked
      · rw [hcf] at hrun
        dsimp only at hrun
        injection hrun with h1 h2
        cases h1
      · rw [hcf] at hrun
        dsimp only at hrun
        rcases check_field_pair_inv (show (_check_field
            (.tup [(calculate_hour_of_day time).1, (calculate_hour_of_day time).2])
            dv.attributes).1 = .ok checked from by rw [hcf]) with ⟨c', s', hchk, hco, hso⟩
        subst hchk
        -- names and attributes of the validated pair
        rcases check_attributes_ok_inv hco with ⟨hcn, hcu, hcl⟩
        rcases check_attributes_ok_inv hso with ⟨hsn, hsu, hsl⟩
        rw [(calculate_hour_of_day_names time).1] at hcn
        rw [(calculate_hour_of_day_names time).2] at hsn
        -- the merge step: both arrays land in the accumulator's data variables
        have haddInv : ∀ accX, addDerivedFields acc (.tup [c', s']) = .ok accX →
            alGet accX.data_vars "hour_of_day_cos" = some c' ∧
            alGet accX.data_vars "hour_of_day_sin" = some s' ∧
            accX.coords = acc.coords := by
          intro accX hX
          unfold addDerivedFields addFieldsLoop at hX
          unfold setVarNamed at hX
          rw [hcn] at hX
          dsimp only at hX
          rw [hnc1] at hX
          simp only [Bool.false_eq_true, if_false] at hX
          unfold addFieldsLoop at hX
          unfold setVarNamed at hX
          rw [hsn] at hX
          dsimp only at hX
          rw [hnc2] at hX
          simp only [Bool.false_eq_true, if_false] at hX
          unfold addFieldsLoop at hX
          injection hX with hX
          subst hX
          refine ⟨?_, ?_, rfl⟩
          · dsimp only
            rw [alGet_alSet_ne _ _ _ _ (by decide)]
            exact alGet_alSet_self _ _ _
          · dsimp only
            exact alGet_alSet_self _ _ _
        rcases hadd : addDerivedFields acc (.tup [c', s']) with e | acc1
        · rw [hadd] at hrun
          injection hrun with h1 h2
          cases h1
        · rw [hadd] at hrun
          dsimp only at hrun
          rcases haddInv acc1 hadd with ⟨hac, has, hacoords⟩
          rcases hret : _return_dropped_coordinates acc1 dsi rc chunks with e | accF
          · rw [hret] at hrun
            injection hrun with h1 h2
            cases h1
          · rw [hret] at hrun
            injection hrun with h1 h2
            injection h1 with h1
            subst h1
            -- the restore step does not touch the two output names
            rcases prepare_inputs_rc_inv hprep with ⟨ds0, hsel, hrc⟩
            have hrcsub : ∀ x ∈ rc, x ∈ alKeys dv.kwargs := by
              intro x hx
              rw [hrc] at hx
              exact alKeys_filter_mem (mem_filter_strings hx)
            have hcosrc : "hour_of_day_cos" ∉ rc := fun hx => hnk1 (hrcsub _ hx)
            have hsinrc : "hour_of_day_sin" ∉ rc := fun hx => hnk2 (hrcsub _ hx)
            have hpc := returnDroppedLoop_data_vars_not_mem hcosrc hret
            have hps := returnDroppedLoop_data_vars_not_mem hsinrc hret
            refine ⟨c', s', ?_, ?_, hcn, hsn,
              attrSet_of_exists hcu, attrSet_of_exists hcl,
              attrSet_of_exists hsu, attrSet_of_exists hsl⟩
            · rw [hpc, hac]
            · rw [hps, has]

/-- Witness fixtures for C7: the initial accumulator of a `derive_variables`
run over `dsA`, and the per-spec executor applied to the hour-of-day spec. -/
def c7acc : Dataset :=
  { data_vars := [], coords := [], indexes := [], attrs := dsA.attrs }

def c7res : Except Err Dataset × PyState :=
  processDerivedVariable env0 dsA [("altitude", 1)] st0 c7acc dvHourAlt

def c7out : Dataset :=
  match c7res.1 with
  | .ok d => d
  | .error _ => c7acc

theorem C7_tuple_outputs_witness :
    ∃ c s, alGet c7out.data_vars "hour_of_day_cos" = some c ∧
      alGet c7out.data_vars "hour_of_day_sin" = some s ∧
      c.name = some "hour_of_day_cos" ∧ s.name = some "hour_of_day_sin" ∧
      attrSet c "units" = true ∧ attrSet c "long_name" = true ∧
      attrSet s "units" = true ∧ attrSet s "long_name" = true :=
  C7_tuple_outputs env0 dsA [("altitude", 1)] st0 c7acc dvHourAlt c7out c7res.2
    (by decide) (by decide) (by decide) (by decide) (by decide) (by decide)

/-! ### Claim C4: lookup-preservation lemmas -/

theorem mem_keys_of_alHas {α : Type} {l : AList α} {n : String}
    (h : alHas l n = true) : n ∈ alKeys l := by
  rcases hv : alGet l n with _ | a
  · simp [alHas, hv] at h
  · exact List.mem_map.mpr ⟨(n, a), mem_of_alGet_some hv, rfl⟩

theorem dsWF_parts {ds : Dataset} (h : dsWF ds) :
    (alKeys ds.data_vars).Nodup ∧ (alKeys ds.coords).Nodup ∧
      (alKeys ds.data_vars).Disjoint (alKeys ds.coords) := by
  rcases List.nodup_append.mp h with ⟨h1, h2, h3⟩
  exact ⟨h1, h2, h3⟩

theorem pickVars_mem {ds : Dataset} {l : List String}
    {picked : List (String × DataArray)} (h : pickVars ds l = .ok picked) :
    ∀ p ∈ picked, ds.getVar p.1 = .ok p.2 := by
  induction l generalizing picked with
  | nil =>
    simp only [pickVars] at h
    injection h with h
    subst h
    simp
  | cons n rest ih =>
    unfold pickVars at h
    rcases hv : ds.getVar n with e | a
    · rw [hv] at h
      cases h
    · rw [hv] at h
      rcases hrest : pickVars ds rest with e | restP
      · rw [hrest] at h
        cases h
      · rw [hrest] at h
        injection h with h
        subst h
        intro p hp
        rcases List.mem_cons.mp hp with hp | hp
        · subst hp
          exact hv
        · exact ih hrest p hp

theorem pickVars_keys {ds : Dataset} {l : List String}
    {picked : List (String × DataArray)} (h : pickVars ds l = .ok picked) :
    alKeys picked = l := by
  induction l generalizing picked with
  | nil =>
    simp only [pickVars] at h
    injection h with h
    subst h
    rfl
  | cons n rest ih =>
    unfold pickVars at h
    rcases hv : ds.getVar n with e | a
    · rw [hv] at h
      cases h
    · rw [hv] at h
      rcases hrest : pickVars ds rest with e | restP
      · rw [hrest] at h
        cases h
      · rw [hrest] at h
        injection h with h
        subst h
        simpa [alKeys] using ih hrest

theorem getVar_of_mem_coords {ds : Dataset} {n : String} {a : DataArray}
    (hwf : dsWF ds) (hmem : (n, a) ∈ ds.coords) : ds.getVar n = .ok a := by
  rcases dsWF_parts hwf with ⟨h1, h2, h3⟩
  have hc : alGet ds.coords n = some a := alGet_of_mem_of_nodup hmem h2
  have hd : alGet ds.data_vars n = none := by
    apply alGet_eq_none_of_not_mem_keys
    intro hin
    exact h3 hin (List.mem_map.mpr ⟨(n, a), hmem, rfl⟩)
  unfold Dataset.getVar
  rw [hd, hc]

theorem selectVars_getVar {ds : Dataset} {names : List String} {ds' : Dataset}
    {n : String} {a : DataArray} (hwf : dsWF ds)
    (hsel : selectVars ds names = .ok ds') (hget : ds'.getVar n = .ok a) :
    ds.getVar n = .ok a := by
  unfold selectVars at hsel
  rcases hp : pickVars ds names with e | picked
  · rw [hp] at hsel
    cases hsel
  · rw [hp] at hsel
    injection hsel with hsel
    subst hsel
    unfold Dataset.getVar at hget
    dsimp only at hget
    rcases hd : alGet (picked.filter (fun p => alHas ds.data_vars p.1)) n with _ | a1
    · rw [hd] at hget
      rcases hc : alGet (ds.coords.filter _) n with _ | a2
      · rw [hc] at hget
        cases hget
      · rw [hc] at hget
        injection hget with hget
        subst hget
        exact getVar_of_mem_coords hwf
          (List.mem_of_mem_filter (mem_of_alGet_some hc))
    · rw [hd] at hget
      injection hget with hget
      subst hget
      exact pickVars_mem hp _ (List.mem_of_mem_filter (mem_of_alGet_some hd))

theorem selectVars_wf {ds : Dataset} {names : List String} {ds' : Dataset}
    (hwf : dsWF ds) (hnames : names.Nodup)
    (hsel : selectVars ds names = .ok ds') : dsWF ds' := by
  unfold selectVars at hsel
  rcases hp : pickVars ds names with e | picked
  · rw [hp] at hsel
    cases hsel
  · rw [hp] at hsel
    injection hsel with hsel
    subst hsel
    rcases dsWF_parts hwf with ⟨h1, h2, h3⟩
    have hpk := pickVars_keys hp
    unfold dsWF
    rw [List.nodup_append]
    refine ⟨?_, ?_, ?_⟩
    · have hpn : (alKeys picked).Nodup := by rw [hpk]; exact hnames
      exact ((List.filter_sublist _).map Prod.fst).nodup hpn
    · exact ((List.filter_sublist _).map Prod.fst).nodup h2
    · intro x hx hx2
      dsimp only at hx hx2
      rcases List.mem_map.mp hx with ⟨q, hq, hqx⟩
      have hqpred := List.of_mem_filter hq
      have hxd : x ∈ alKeys ds.data_vars := by
        rw [← hqx]
        exact mem_keys_of_alHas hqpred
      rcases List.mem_map.mp hx2 with ⟨q2, hq2, hqx2⟩
      exact h3 hxd (by
        rw [← hqx2]
        exact List.mem_map.mpr ⟨q2, List.mem_of_mem_filter hq2, rfl⟩)

theorem getVar_drop_indexes (ds : Dataset) (ns : List String) (n : String) :
    (drop_indexes ds ns).getVar n = ds.getVar n := rfl

theorem dsWF_drop_indexes {ds : Dataset} (ns : List String) (hwf : dsWF ds) :
    dsWF (drop_indexes ds ns) := hwf

theorem alKeys_alSet_not_has {α : Type} {l : AList α} {k : String} {v : α}
    (h : alGet l k = none) : alKeys (alSet l k v) = alKeys l ++ [k] := by
  induction l with
  | nil => rfl
  | cons p rest ih =>
    by_cases hk : p.1 = k
    · simp [alGet, hk] at h
    · rw [show alSet (p :: rest) k v = p :: alSet rest k v from by simp [alSet, hk]]
      have ih2 := ih (by simpa [alGet, hk] using h)
      simp only [alKeys, List.map_cons] at ih2 ⊢
      rw [ih2]
      simp

theorem alKeys_alErase {α : Type} (l : AList α) (k : String) :
    alKeys (alErase l k) = (alKeys l).filter (fun x => x ≠ k) := by
  induction l with
  | nil => rfl
  | cons p rest ih =>
    simp only [alKeys, List.map_cons] at ih ⊢
    by_cases hk : p.1 = k
    · rw [show alErase (p :: rest) k = alErase rest k from by
        simp [alErase, List.filter_cons, hk]]
      rw [ih]
      simp [List.filter_cons, hk]
    · rw [show alErase (p :: rest) k = p :: alErase rest k from by
        simp [alErase, List.filter_cons, hk]]
      simp only [List.map_cons, List.filter_cons]
      rw [if_pos (by simpa using hk)]
      rw [ih]

theorem reset_coords_getVar {ds : Dataset} {c : String} {ds' : Dataset}
    {n : String} {a : DataArray} (hwf : dsWF ds)
    (h : reset_coords ds c = .ok ds') (hget : ds'.getVar n = .ok a) :
    ds.getVar n = .ok a := by
  unfold reset_coords at h
  by_cases hidx : c ∈ ds.indexes
  · rw [if_pos hidx] at h
    cases h
  · rw [if_neg hidx] at h
    rcases hc : alGet ds.coords c with _ | ac
    · rw [hc] at h
      cases h
    · rw [hc] at h
      injection h with h
      subst h
      rcases dsWF_parts hwf with ⟨h1, h2, h3⟩
      have hdnone : alGet ds.data_vars c = none := by
        apply alGet_eq_none_of_not_mem_keys
        intro hin
        exact h3 hin (mem_keys_of_alHas (by simp [alHas, hc]))
      unfold Dataset.getVar at hget ⊢
      dsimp only at hget
      by_cases hnc : n = c
      · subst hnc
        rw [alGet_alSet_self] at hget
        injection hget with hget
        subst hget
        rw [hdnone, hc]
      · rw [alGet_alSet_ne _ _ _ _ hnc, alGet_alErase_ne _ _ _ hnc] at hget
        exact hget

theorem reset_coords_wf {ds : Dataset} {c : String} {ds' : Dataset}
    (hwf : dsWF ds) (h : reset_coords ds c = .ok ds') : dsWF ds' := by
  unfold reset_coords at h
  by_cases hidx : c ∈ ds.indexes
  · rw [if_pos hidx] at h
    cases h
  · rw [if_neg hidx] at h
    rcases hc : alGet ds.coords c with _ | ac
    · rw [hc] at h
      cases h
    · rw [hc] at h
      injection h with h
      subst h
      rcases dsWF_parts hwf with ⟨h1, h2, h3⟩
      have hdnone : alGet ds.data_vars c = none := by
        apply alGet_eq_none_of_not_mem_keys
        intro hin
        exact h3 hin (mem_keys_of_alHas (by simp [alHas, hc]))
      unfold dsWF
      dsimp only
      rw [alKeys_alSet_not_has hdnone, alKeys_alErase]
      rw [List.nodup_append]
      refine ⟨?_, ?_, ?_⟩
      · rw [List.nodup_append]
        refine ⟨h1, by simp, ?_⟩
        intro x hx hx2
        simp only [List.mem_singleton] at hx2
        subst hx2
        exact h3 hx (mem_keys_of_alHas (by simp [alHas, hc]))
      · exact h2.filter _
      · intro x hx hx2
        have hx2' := List.of_mem_filter hx2
        have hx2m := List.mem_of_mem_filter hx2
        rcases List.mem_append.mp hx with hx | hx
        · exact h3 hx hx2m
        · simp only [List.mem_singleton] at hx
          subst hx
          simp at hx2'

theorem resetCoordsLoop_getVar {chunks : AList Nat} {rc : List String}
    {d d' : Dataset} (hwf : dsWF d)
    (h : resetCoordsLoop chunks rc d = .ok d') :
    dsWF d' ∧ ∀ n a, d'.getVar n = .ok a → d.getVar n = .ok a := by
  induction rc generalizing d with
  | nil =>
    simp only [resetCoordsLoop] at h
    injection h with h
    subst h
    exact ⟨hwf, fun n a ha => ha⟩
  | cons c rest ih =>
    unfold resetCoordsLoop at h
    by_cases hc : alHas chunks c
    · rw [if_pos hc] at h
      rcases hr : reset_coords d c with e | d2
      · rw [hr] at h
        cases h
      · rw [hr] at h
        have hwf2 := reset_coords_wf hwf hr
        rcases ih hwf2 h with ⟨hwf', hpres⟩
        exact ⟨hwf', fun n a ha => reset_coords_getVar hwf hr (hpres n a ha)⟩
    · rw [if_neg hc] at h
      exact ih hwf h

theorem alHas_map_val {α β : Type} (l : AList α) (g : String → α → β) (n : String) :
    alHas (l.map (fun p => (p.1, g p.1 p.2))) n = alHas l n := by
  simp [alHas, alGet_map_val]

theorem alGet_map_chunk (l : AList DataArray) (chunks : AList Nat) (n : String) :
    alGet (l.map (fun p => (p.1, chunkArray p.2 chunks))) n =
      (alGet l n).map (fun a => chunkArray a chunks) := by
  induction l with
  | nil => rfl
  | cons p rest ih =>
    by_cases hk : p.1 = n
    · simp [alGet, hk]
    · simp [alGet, hk, ih]

theorem alGet_map_chunk_idx (l : AList DataArray) (chunks : AList Nat)
    (idx : List String) (n : String) :
    alGet (l.map (fun p => if p.1 ∈ idx then p else (p.1, chunkArray p.2 chunks))) n =
      (alGet l n).map (fun a => if n ∈ idx then a else chunkArray a chunks) := by
  induction l with
  | nil => rfl
  | cons p rest ih =>
    simp only [List.map_cons]
    by_cases hi : p.1 ∈ idx
    · rw [if_pos hi]
      by_cases hk : p.1 = n
      · subst hk
        simp [alGet, hi]
      · simp [alGet, hk, ih]
    · rw [if_neg hi]
      by_cases hk : p.1 = n
      · subst hk
        simp [alGet, hi]
      · simp [alGet, hk, ih]

theorem applyChunk_getVar {ds : Dataset} {chunks : AList Nat} {ds' : Dataset}
    {n : String} {a : DataArray}
    (h : applyChunk ds chunks = .ok ds') (hget : ds'.getVar n = .ok a) :
    ∃ a0, ds.getVar n = .ok a0 ∧ a.data = a0.data ∧ a.name = a0.name ∧
      a.attrs = a0.attrs := by
  unfold applyChunk at h
  by_cases hbad : ((alKeys chunks).filter (fun d => !alHas ds.sizes d)).isEmpty
  · rw [if_pos hbad] at h
    injection h with h
    subst h
    unfold Dataset.getVar at hget ⊢
    dsimp only at hget
    rw [alGet_map_chunk] at hget
    rcases hd0 : alGet ds.data_vars n with _ | a0
    · rw [hd0] at hget
      simp only [Option.map_none'] at hget
      rw [alGet_map_chunk_idx] at hget
      rcases hc0 : alGet ds.coords n with _ | a0
      · rw [hc0] at hget
        simp only [Option.map_none'] at hget
        cases hget
      · rw [hc0] at hget
        simp only [Option.map_some'] at hget
        injection hget with hget
        subst hget
        refine ⟨a0, by simp only [hd0, hc0], ?_, ?_, ?_⟩
        · by_cases hni : n ∈ ds.indexes
          · simp [hni]
          · simp [hni, chunkArray]
        · by_cases hni : n ∈ ds.indexes
          · simp [hni]
          · simp [hni, chunkArray]
        · by_cases hni : n ∈ ds.indexes
          · simp [hni]
          · simp [hni, chunkArray]
    · rw [hd0] at hget
      simp only [Option.map_some'] at hget
      injection hget with hget
      subst hget
      exact ⟨a0, by simp only [hd0], by simp [chunkArray], by simp [chunkArray],
        by simp [chunkArray]⟩
  · rw [if_neg hbad] at h
    cases h

theorem applyChunk_wf {ds : Dataset} {chunks : AList Nat} {ds' : Dataset}
    (hwf : dsWF ds) (h : applyChunk ds chunks = .ok ds') : dsWF ds' := by
  unfold applyChunk at h
  by_cases hbad : ((alKeys chunks).filter (fun d => !alHas ds.sizes d)).isEmpty
  · rw [if_pos hbad] at h
    injection h with h
    subst h
    unfold dsWF at hwf ⊢
    dsimp only
    have h1 : alKeys (ds.data_vars.map (fun p => (p.1, chunkArray p.2 chunks))) =
        alKeys ds.data_vars := by
      simp [alKeys]
    have h2 : alKeys (ds.coords.map
        (fun p => if p.1 ∈ ds.indexes then p else (p.1, chunkArray p.2 chunks))) =
        alKeys ds.coords := by
      simp only [alKeys, List.map_map]
      apply List.map_congr_left
      intro p hp
      by_cases hpi : p.1 ∈ ds.indexes
      · simp [hpi]
      · simp [hpi]
    rw [h1, h2]
    exact hwf
  · rw [if_neg hbad] at h
    cases h

theorem chunk_dataset_getVar {ds : Dataset} {chunks : AList Nat} {ds' : Dataset}
    {n : String} {a : DataArray}
    (h : _chunk_dataset ds chunks = .ok ds') (hget : ds'.getVar n = .ok a) :
    ∃ a0, ds.getVar n = .ok a0 ∧ a.data = a0.data ∧ a.name = a0.name := by
  unfold _chunk_dataset at h
  rcases hchk : ds.data_vars.mapM (fun _v => chunks.mapM (fun q =>
      match alGet ds.sizes q.1 with
      | some _ => Except.ok ()
      | none => Except.error (Err.keyErrorDim q.1))) with e | u
  · rw [hchk] at h
    cases h
  · rw [hchk] at h
    dsimp only at h
    rcases hap : applyChunk ds chunks with e | ds2
    · rw [hap] at h
      cases h
    · rw [hap] at h
      injection h with h
      subst h
      rcases applyChunk_getVar hap hget with ⟨a0, h0, hd, hn, _⟩
      exact ⟨a0, h0, hd, hn⟩

theorem chunk_dataset_wf {ds : Dataset} {chunks : AList Nat} {ds' : Dataset}
    (hwf : dsWF ds) (h : _chunk_dataset ds chunks = .ok ds') : dsWF ds' := by
  unfold _chunk_dataset at h
  rcases hchk : ds.data_vars.mapM (fun _v => chunks.mapM (fun q =>
      match alGet ds.sizes q.1 with
      | some _ => Except.ok ()
      | none => Except.error (Err.keyErrorDim q.1))) with e | u
  · rw [hchk] at h
    cases h
  · rw [hchk] at h
    dsimp only at h
    rcases hap : applyChunk ds chunks with e | ds2
    · rw [hap] at h
      cases h
    · rw [hap] at h
      injection h with h
      subst h
      exact applyChunk_wf hwf hap

theorem alKeys_filter_key {α : Type} (l : AList α) (q : String → Bool) :
    alKeys (l.filter (fun p => q p.1)) = (alKeys l).filter q := by
  induction l with
  | nil => rfl
  | cons p rest ih =>
    simp only [alKeys, List.map_cons, List.filter_cons] at ih ⊢
    by_cases hq : q p.1
    · simp [hq, ih]
    · simp [hq, ih]

/-- The full getVar-preservation chain: an array looked up in the prepared
(chunked) input subset has the same contents as the original dataset's
same-named array. -/
theorem prepare_inputs_getVar {ds : Dataset} {chunking : AList Nat}
    {dv : DerivedVariable} {dsi : Dataset} {chunks : AList Nat}
    {rc : List String} {kw : AList DataArray}
    (hwf : dsWF ds) (hkw : (alKeys dv.kwargs).Nodup)
    (h : prepare_inputs ds chunking dv = .ok (dsi, chunks, rc, kw)) :
    ∀ n a, dsi.getVar n = .ok a →
      ∃ a0, ds.getVar n = .ok a0 ∧ a.data = a0.data := by
  have hnames : (alKeys (popLatLon dv.kwargs).2).Nodup := by
    unfold popLatLon
    dsimp only
    rw [alKeys_filter_key dv.kwargs
      (fun x => !(decide (x = "lat") || decide (x = "lon")))]
    exact hkw.filter _
  unfold prepare_inputs at h
  rcases hsel : selectVars ds (alKeys (popLatLon dv.kwargs).2) with e | ds0
  · simp only [hsel] at h
    cases h
  · simp only [hsel] at h
    rcases hbc : buildChunks ds0 chunking with e | chunks0
    · simp only [hbc] at h
      cases h
    · simp only [hbc] at h
      rcases hrl : resetCoordsLoop chunks0
          ((alKeys (popLatLon dv.kwargs).2).filter (fun v => alHas ds0.coords v))
          (drop_indexes ds0
            ((alKeys (popLatLon dv.kwargs).2).filter (fun v => alHas ds0.coords v)))
          with e | ds2
      · simp only [hrl] at h
        cases h
      · simp only [hrl] at h
        rcases hcd : _chunk_dataset ds2 chunks0 with e | dsi0
        · simp only [hcd] at h
          cases h
        · simp only [hcd] at h
          rcases hk0 : (if !(popLatLon dv.kwargs).1.isEmpty then
              match get_latlon_coords_for_input ds with
              | .error e => Except.error e
              | .ok latlon => buildKwargsLoop latlon (popLatLon dv.kwargs).1 []
            else Except.ok ([] : AList DataArray)) with e | kwargs0
          · simp only [hk0] at h
            cases h
          · simp only [hk0] at h
            rcases hk1 : buildKwargsLoop dsi0 (popLatLon dv.kwargs).2 kwargs0
                with e | kwargs1
            · simp only [hk1] at h
              cases h
            · simp only [hk1] at h
              simp only [Except.ok.injEq, Prod.mk.injEq] at h
              have hdsi : dsi0 = dsi := h.1
              subst hdsi
              intro n a hget
              have hwf0 := selectVars_wf hwf hnames hsel
              have hwf1 := dsWF_drop_indexes
                ((alKeys (popLatLon dv.kwargs).2).filter
                  (fun v => alHas ds0.coords v)) hwf0
              rcases resetCoordsLoop_getVar hwf1 hrl with ⟨hwf2, hpres2⟩
              rcases chunk_dataset_getVar hcd hget with ⟨a2, ha2, hda2, _⟩
              have ha1 := hpres2 n a2 ha2
              rw [getVar_drop_indexes] at ha1
              have ha0 := selectVars_getVar hwf hsel ha1
              exact ⟨a2, ha0, hda2⟩

/-! ### Claim C4: per-spec coordinate invariant -/

/-- The names under which the modelled derivation functions store their
outputs. -/
def builtinOutputNames : List String :=
  ["toa_radiation", "hour_of_day_cos", "hour_of_day_sin",
   "day_of_year_cos", "day_of_year_sin"]

/-- The references under which the three `calculate_*` derivation functions
are reachable: bare names and fully-qualified own-namespace names. -/
def allowedCalcNames : List String :=
  ["calculate_toa_radiation", "calculate_hour_of_day", "calculate_day_of_year",
   "mllam_data_prep.derived_variables.calculate_toa_radiation",
   "mllam_data_prep.derived_variables.calculate_hour_of_day",
   "mllam_data_prep.derived_variables.calculate_day_of_year"]

theorem resolve_allowed {fn : String} (h : fn ∈ allowedCalcNames)
    (env : PyEnv) (st : PyState) :
    ∃ f, (f = FuncRef.toaRad ∨ f = FuncRef.hourOfDay ∨ f = FuncRef.dayOfYear) ∧
      _get_derived_variable_function env st fn = (.ok (.pyFn f), st) := by
  simp only [allowedCalcNames, List.mem_cons, List.mem_singleton] at h
  rcases h with rfl | rfl | rfl | rfl | rfl | rfl | h
  · exact ⟨.toaRad, Or.inl rfl, rfl⟩
  · exact ⟨.hourOfDay, Or.inr (Or.inl rfl), rfl⟩
  · exact ⟨.dayOfYear, Or.inr (Or.inr rfl), rfl⟩
  · exact ⟨.toaRad, Or.inl rfl, rfl⟩
  · exact ⟨.hourOfDay, Or.inr (Or.inl rfl), rfl⟩
  · exact ⟨.dayOfYear, Or.inr (Or.inr rfl), rfl⟩
  · simp at h

theorem callObj_toaRad_inv {kw : AList DataArray} {obj : PyObj}
    (h : callObj (.pyFn .toaRad) kw = .ok obj) :
    ∃ lat lon time, obj = .arr (calculate_toa_radiation lat lon time) := by
  unfold callObj at h
  by_cases hm : argsMatch (alKeys kw) ["lat", "lon", "time"]
  · rw [if_pos hm] at h
    rcases h1 : alGet kw "lat" with _ | lat
    · rw [h1] at h
      cases h
    · rcases h2 : alGet kw "lon" with _ | lon
      · rw [h1, h2] at h
        cases h
      · rcases h3 : alGet kw "time" with _ | time
        · rw [h1, h2, h3] at h
          cases h
        · rw [h1, h2, h3] at h
          injection h with h
          exact ⟨lat, lon, time, h.symm⟩
  · rw [if_neg hm] at h
    cases h

theorem callObj_dayOfYear_inv {kw : AList DataArray} {obj : PyObj}
    (h : callObj (.pyFn .dayOfYear) kw = .ok obj) :
    ∃ time, obj = .tup [(calculate_day_of_year time).1, (calculate_day_of_year time).2] := by
  unfold callObj at h
  dsimp only at h
  by_cases hm : argsMatch (alKeys kw) ["time"]
  · rw [if_pos hm] at h
    rcases ht : alGet kw "time" with _ | time
    · rw [ht] at h
      cases h
    · rw [ht] at h
      injection h with h
      exact ⟨time, h.symm⟩
  · rw [if_neg hm] at h
    cases h

theorem calculate_day_of_year_names (time : DataArray) :
    (calculate_day_of_year time).1.name = some "day_of_year_cos" ∧
    (calculate_day_of_year time).2.name = some "day_of_year_sin" := ⟨rfl, rfl⟩

theorem calculate_toa_radiation_name (lat lon time : DataArray) :
    (calculate_toa_radiation lat lon time).name = some "toa_radiation" := rfl

/-- All output names of the three modelled derivation functions lie in
`builtinOutputNames`. -/
theorem callObj_calc_names {f : FuncRef} {kw : AList DataArray} {obj : PyObj}
    (hf : f = FuncRef.toaRad ∨ f = FuncRef.hourOfDay ∨ f = FuncRef.dayOfYear)
    (h : callObj (.pyFn f) kw = .ok obj) :
    (∃ a, obj = .arr a ∧ ∃ s ∈ builtinOutputNames, a.name = some s) ∨
    (∃ c s, obj = .tup [c, s] ∧
      (∃ s1 ∈ builtinOutputNames, c.name = some s1) ∧
      (∃ s2 ∈ builtinOutputNames, s.name = some s2)) := by
  rcases hf with rfl | rfl | rfl
  · rcases callObj_toaRad_inv h with ⟨lat, lon, time, rfl⟩
    exact Or.inl ⟨_, rfl, "toa_radiation", by simp [builtinOutputNames],
      calculate_toa_radiation_name lat lon time⟩
  · rcases callObj_hourOfDay_inv h with ⟨time, htime, rfl⟩
    exact Or.inr ⟨_, _, rfl,
      ⟨"hour_of_day_cos", by simp [builtinOutputNames],
        (calculate_hour_of_day_names time).1⟩,
      ⟨"hour_of_day_sin", by simp [builtinOutputNames],
        (calculate_hour_of_day_names time).2⟩⟩
  · rcases callObj_dayOfYear_inv h with ⟨time, rfl⟩
    exact Or.inr ⟨_, _, rfl,
      ⟨"day_of_year_cos", by simp [builtinOutputNames],
        (calculate_day_of_year_names time).1⟩,
      ⟨"day_of_year_sin", by simp [builtinOutputNames],
        (calculate_day_of_year_names time).2⟩⟩

theorem check_field_arr_inv {a : DataArray} {fa : AList String} {obj : PyObj}
    (h : (_check_field (.arr a) fa).1 = .ok obj) :
    ∃ a', obj = .arr a' ∧ (_check_attributes a fa).1 = .ok a' := by
  unfold _check_field at h
  rcases hc : _check_attributes a fa with ⟨r, w⟩
  rcases r with e | a'
  · simp [hc] at h
  · simp only [hc] at h
    injection h with h
    exact ⟨a', h.symm, rfl⟩

theorem setVarNamed_coords_other {acc : Dataset} {f : DataArray} {acc' : Dataset}
    {n : String} (h : setVarNamed acc f = .ok acc') (hne : f.name ≠ some n) :
    alGet acc'.coords n = alGet acc.coords n := by
  unfold setVarNamed at h
  rcases hf : f.name with _ | m
  · rw [hf] at h
    cases h
  · rw [hf] at h
    dsimp only at h
    have hmn : m ≠ n := by
      intro hh
      exact hne (by rw [hf, hh])
    by_cases hc : alHas acc.coords m
    · rw [if_pos hc] at h
      injection h with h
      subst h
      exact alGet_alSet_ne _ _ _ _ (Ne.symm hmn)
    · rw [if_neg hc] at h
      injection h with h
      subst h
      rfl

theorem addFieldsLoop_coords_other {fields : List DataArray} {acc acc' : Dataset}
    {n : String} (h : addFieldsLoop fields acc = .ok acc')
    (hne : ∀ f ∈ fields, f.name ≠ some n) :
    alGet acc'.coords n = alGet acc.coords n := by
  induction fields generalizing acc with
  | nil =>
    simp only [addFieldsLoop] at h
    injection h with h
    subst h
    rfl
  | cons f rest ih =>
    unfold addFieldsLoop at h
    rcases hs : setVarNamed acc f with e | acc1
    · rw [hs] at h
      cases h
    · rw [hs] at h
      rw [ih h (fun g hg => hne g (List.mem_cons_of_mem _ hg))]
      exact setVarNamed_coords_other hs (hne f (List.mem_cons_self _ _))

theorem returnDroppedLoop_coords_skip {dsi : Dataset} {chunks : AList Nat}
    {rc : List String} {acc acc2 : Dataset} {n : String}
    (h : returnDroppedLoop dsi chunks rc acc = .ok acc2)
    (hn : n ∉ rc ∨ alHas chunks n = false) :
    alGet acc2.coords n = alGet acc.coords n := by
  induction rc generalizing acc with
  | nil =>
    simp only [returnDroppedLoop] at h
    injection h with h
    subst h
    rfl
  | cons req rest ih =>
    have hn' : n ∉ rest ∨ alHas chunks n = false := by
      rcases hn with hn | hn
      · exact Or.inl (fun hh => hn (List.mem_cons_of_mem _ hh))
      · exact Or.inr hn
    unfold returnDroppedLoop at h
    by_cases hc : alHas chunks req
    · rw [if_pos hc] at h
      rcases hv : dsi.getVar req with e | a
      · rw [hv] at h
        cases h
      · rw [hv] at h
        rw [ih h hn']
        dsimp only
        have hreq : req ≠ n := by
          intro hh
          subst hh
          rcases hn with hn | hn
          · exact hn (List.mem_cons_self _ _)
          · rw [hn] at hc
            cases hc
        exact alGet_alSet_ne _ _ _ _ (fun hh => hreq hh.symm)
    · rw [if_neg hc] at h
      exact ih h hn'

theorem returnDroppedLoop_restores {dsi : Dataset} {chunks : AList Nat}
    {rc : List String} {acc acc2 : Dataset} {n : String}
    (h : returnDroppedLoop dsi chunks rc acc = .ok acc2)
    (hn : n ∈ rc) (hc : alHas chunks n = true) :
    ∃ a, dsi.getVar n = .ok a ∧ alGet acc2.coords n = some a := by
  induction rc generalizing acc with
  | nil => simp at hn
  | cons req rest ih =>
    unfold returnDroppedLoop at h
    by_cases hreq : req = n
    · subst hreq
      rw [if_pos hc] at h
      rcases hv : dsi.getVar req with e | a
      · rw [hv] at h
        cases h
      · rw [hv] at h
        by_cases hrest : req ∈ rest
        · rcases ih h hrest with ⟨a2, ha2, hco2⟩
          exact ⟨a2, hv.symm.trans ha2, hco2⟩
        · refine ⟨a, rfl, ?_⟩
          rw [returnDroppedLoop_coords_skip h (Or.inl hrest)]
          dsimp only
          exact alGet_alSet_self _ _ _
    · have hrest : n ∈ rest := by
        rcases List.mem_cons.mp hn with hn | hn
        · exact absurd hn.symm hreq
        · exact hn
      by_cases hck : alHas chunks req
      · rw [if_pos hck] at h
        rcases hv : dsi.getVar req with e | a
        · rw [hv] at h
          cases h
        · rw [hv] at h
          exact ih h hrest
      · rw [if_neg hck] at h
        exact ih h hrest

/-- Persistence of the restored-coordinate property through one spec, plus its
establishment by a spec that requires the coordinate under the chunk plan. -/
theorem processDV_coord_invariant (env : PyEnv) (ds : Dataset)
    (chunking : AList Nat) (st : PyState) (acc : Dataset) (dv : DerivedVariable)
    (acc2 : Dataset) (st2 : PyState) (name : String)
    (hwf : dsWF ds) (hkw : (alKeys dv.kwargs).Nodup)
    (hfx : dv.function ∈ allowedCalcNames)
    (hname : name ∉ builtinOutputNames)
    (hrun : processDerivedVariable env ds chunking st acc dv = (.ok acc2, st2)) :
    (alGet acc2.coords name = alGet acc.coords name ∨
      ∃ a a0, alGet acc2.coords name = some a ∧ ds.getVar name = .ok a0 ∧
        a.data = a0.data) ∧
    (∀ dsi chunks rc kw,
      prepare_inputs ds chunking dv = .ok (dsi, chunks, rc, kw) →
      name ∈ rc → alHas chunks name = true →
      ∃ a a0, alGet acc2.coords name = some a ∧ ds.getVar name = .ok a0 ∧
        a.data = a0.data) := by
  unfold processDerivedVariable at hrun
  rcases hprep : prepare_inputs ds chunking dv with e | res
  · rw [hprep] at hrun
    injection hrun with h1 h2
    cases h1
  · rcases res with ⟨dsi, chunks, rc, kw⟩
    rw [hprep] at hrun
    dsimp only at hrun
    rcases resolve_allowed hfx env st with ⟨f, hf, hres⟩
    rw [hres] at hrun
    dsimp only at hrun
    rcases hcall : callObj (.pyFn f) kw with e | obj
    · rw [hcall] at hrun
      injection hrun with h1 h2
      cases h1
    · rw [hcall] at hrun
      dsimp only at hrun
      rcases hcf : _check_field obj dv.attributes with ⟨rcf, wcf⟩
      rcases rcf with e | checked
      · rw [hcf] at hrun
        dsimp only at hrun
        injection hrun with h1 h2
        cases h1
      · rw [hcf] at hrun
        dsimp only at hrun
        -- every name written by the merge lies in builtinOutputNames
        have hmerge : ∀ accX, addDerivedFields acc checked = .ok accX →
            alGet accX.coords name = alGet acc.coords name := by
          intro accX hX
          rcases callObj_calc_names hf hcall with ⟨a, rfl, s, hsB, hsn⟩ |
            ⟨c, s, rfl, ⟨s1, hs1B, hs1n⟩, ⟨s2, hs2B, hs2n⟩⟩
          · rcases check_field_arr_inv (show (_check_field (.arr a) dv.attributes).1
                = .ok checked from by rw [hcf]) with ⟨a', rfl, ha'⟩
            have hna : a'.name = a.name := (check_attributes_ok_inv ha').1
            unfold addDerivedFields at hX
            apply setVarNamed_coords_other hX
            rw [hna, hsn]
            intro hh
            injection hh with hh
            exact hname (hh ▸ hsB)
          · rcases check_field_pair_inv (show (_check_field (.tup [c, s])
                dv.attributes).1 = .ok checked from by rw [hcf])
                with ⟨c', s', rfl, hc', hs'⟩
            have hnc : c'.name = c.name := (check_attributes_ok_inv hc').1
            have hns : s'.name = s.name := (check_attributes_ok_inv hs').1
            unfold addDerivedFields at hX
            apply addFieldsLoop_coords_other hX
            intro g hg
            rcases List.mem_cons.mp hg with hg | hg
            · subst hg
              rw [hnc, hs1n]
              intro hh
              injection hh with hh
              exact hname (hh ▸ hs1B)
            · rcases List.mem_cons.mp hg with hg | hg
              · subst hg
                rw [hns, hs2n]
                intro hh
                injection hh with hh
                exact hname (hh ▸ hs2B)
              · simp at hg
        rcases hadd : addDerivedFields acc checked with e | acc1
        · rw [hadd] at hrun
          injection hrun with h1 h2
          cases h1
        · rw [hadd] at hrun
          dsimp only at hrun
          rcases hret : _return_dropped_coordinates acc1 dsi rc chunks with e | accF
          · rw [hret] at hrun
            injection hrun with h1 h2
            cases h1
          · rw [hret] at hrun
            injection hrun with h1 h2
            injection h1 with h1
            subst h1
            have hmacc1 := hmerge acc1 hadd
            constructor
            · by_cases hpos : name ∈ rc ∧ alHas chunks name = true
              · rcases returnDroppedLoop_restores hret hpos.1 hpos.2 with ⟨a, ha, hc2⟩
                rcases prepare_inputs_getVar hwf hkw hprep name a ha with ⟨a0, ha0, hda⟩
                exact Or.inr ⟨a, a0, hc2, ha0, hda⟩
              · left
                rw [returnDroppedLoop_coords_skip hret (by
                    rcases Decidable.not_and_iff_or_not.mp hpos with hh | hh
                    · exact Or.inl hh
                    · exact Or.inr (by simpa using hh))]
                exact hmacc1
            · intro dsi' chunks' rc' kw' hprep' hmem hhas
              injection hprep' with hp
              obtain ⟨h1, h2, h3, h4⟩ :
                  dsi = dsi' ∧ chunks = chunks' ∧ rc = rc' ∧ kw = kw' := by
                simpa [Prod.mk.injEq] using hp
              subst h1
              subst h2
              subst h3
              rcases returnDroppedLoop_restores hret hmem hhas with ⟨a, ha, hc2⟩
              rcases prepare_inputs_getVar hwf hkw hprep name a ha with ⟨a0, ha0, hda⟩
              exact ⟨a, a0, hc2, ha0, hda⟩

/-- The output dataset carries coordinate `name` with exactly the input
dataset's contents. -/
def coordRestored (ds : Dataset) (name : String) (acc : Dataset) : Prop :=
  ∃ a a0, alGet acc.coords name = some a ∧ ds.getVar name = .ok a0 ∧
    a.data = a0.data

theorem derive_loop_coord (env : PyEnv) (ds : Dataset) (chunking : AList Nat)
    (name : String) (hwf : dsWF ds) (hname : name ∉ builtinOutputNames) :
    ∀ (specs : List (String × DerivedVariable)) (st : PyState) (acc : Dataset)
      (r : Except Err Dataset) (st2 : PyState)
      (specs2 : List (String × DerivedVariable)),
    (∀ p ∈ specs, (alKeys (p.2 : DerivedVariable).kwargs).Nodup ∧
      p.2.function ∈ allowedCalcNames) →
    derive_variables_loop env ds chunking st acc specs = (r, st2, specs2) →
    ∀ out, r = .ok out →
    (coordRestored ds name acc ∨
      ∃ p ∈ specs, ∃ dsi chunks rc kw,
        prepare_inputs ds chunking (p.2 : DerivedVariable) = .ok (dsi, chunks, rc, kw) ∧
        name ∈ rc ∧ alHas chunks name = true) →
    coordRestored ds name out := by
  intro specs
  induction specs with
  | nil =>
    intro st acc r st2 specs2 hall hloop out hout hdisj
    simp only [derive_variables_loop] at hloop
    obtain ⟨h1, h2, h3⟩ : Except.ok acc = r ∧ st = st2 ∧ [] = specs2 := by
      simpa [Prod.mk.injEq] using hloop
    rw [← h1] at hout
    injection hout with hout
    rcases hdisj with h | ⟨p, hp, _⟩
    · rw [← hout]
      exact h
    · simp at hp
  | cons hd rest ih =>
    intro st acc r st2 specs2 hall hloop out hout hdisj
    rcases hd with ⟨nm, dv⟩
    unfold derive_variables_loop at hloop
    rcases hpd : processDerivedVariable env ds chunking st acc dv with ⟨rr, st'⟩
    rw [hpd] at hloop
    rcases rr with e | acc'
    · dsimp only at hloop
      obtain ⟨h1, h2, h3⟩ : Except.error e = r ∧ st' = st2 ∧ _ = specs2 := by
        simpa [Prod.mk.injEq] using hloop
      rw [← h1] at hout
      cases hout
    · dsimp only at hloop
      rcases hl2 : derive_variables_loop env ds chunking st' acc' rest
          with ⟨r2, st'', rest'⟩
      rw [hl2] at hloop
      dsimp only at hloop
      obtain ⟨h1, h2, h3⟩ : r2 = r ∧ st'' = st2 ∧ _ = specs2 := by
        simpa [Prod.mk.injEq] using hloop
      have hdvcond := hall (nm, dv) (List.mem_cons_self _ _)
      have hinv := processDV_coord_invariant env ds chunking st acc dv acc' st'
        name hwf hdvcond.1 hdvcond.2 hname hpd
      have hallrest : ∀ p ∈ rest, (alKeys (p.2 : DerivedVariable).kwargs).Nodup ∧
          p.2.function ∈ allowedCalcNames :=
        fun p hp => hall p (List.mem_cons_of_mem _ hp)
      have hnext : coordRestored ds name acc' ∨
          ∃ p ∈ rest, ∃ dsi chunks rc kw,
            prepare_inputs ds chunking (p.2 : DerivedVariable) =
              .ok (dsi, chunks, rc, kw) ∧
            name ∈ rc ∧ alHas chunks name = true := by
        rcases hdisj with hP | ⟨p, hp, hcond⟩
        · left
          rcases hinv.1 with heq | hEst
          · rcases hP with ⟨a, a0, hg, h0, hda⟩
            exact ⟨a, a0, heq.trans hg, h0, hda⟩
          · exact hEst
        · rcases List.mem_cons.mp hp with hph | hpt
          · left
            rcases hcond with ⟨dsi, chunks, rc, kw, hpi, hmem, hhas⟩
            rw [hph] at hpi
            exact hinv.2 dsi chunks rc kw hpi hmem hhas
          · exact Or.inr ⟨p, hpt, hcond⟩
      exact ih st' acc' r2 st'' rest' hallrest hl2 out (h1.trans hout) hnext

/-- C4.  If a required source name is both a coordinate of a spec's input
subset (`name ∈ rc`, the filter of the spec's popped kwargs keys by coordinate
membership) and a dimension covered by that spec's chunk plan
(`alHas chunks name`), then after a successful `derive_variables` run the
output dataset carries a coordinate of that name whose contents equal the
input dataset's same-named array exactly (the same concrete leaf graph — no
loss or reordering).  The spec functions are the engine's own `calculate_*`
derivation functions (the only callables the executor completes with in this
model), their kwargs dicts have unique keys, and the restored name is not one
of the derived outputs' own names; the restore happens once per spec, after
that spec's merge, so later specs that also require the coordinate re-restore
the same contents. -/
theorem C4_reserved_coordinate_roundtrip (env : PyEnv) (ds : Dataset)
    (chunking : AList Nat) (st : PyState)
    (specs : List (String × DerivedVariable)) (out : Dataset) (st2 : PyState)
    (specs2 : List (String × DerivedVariable)) (name : String)
    (hwf : dsWF ds)
    (hspecs : ∀ p ∈ specs, (alKeys (p.2 : DerivedVariable).kwargs).Nodup ∧
      p.2.function ∈ allowedCalcNames)
    (hname : name ∉ builtinOutputNames)
    (hreq : ∃ p ∈ specs, ∃ dsi chunks rc kw,
      prepare_inputs ds chunking (p.2 : DerivedVariable) = .ok (dsi, chunks, rc, kw) ∧
      name ∈ rc ∧ alHas chunks name = true)
    (hrun : derive_variables env ds specs chunking st = (.ok out, st2, specs2)) :
    ∃ a a0, alGet out.coords name = some a ∧ ds.getVar name = .ok a0 ∧
      a.data = a0.data :=
  derive_loop_coord env ds chunking name hwf hname specs st
    { data_vars := [], coords := [], indexes := [], attrs := ds.attrs }
    (.ok out) st2 specs2 hspecs hrun out rfl (Or.inr hreq)

def c4prep : Dataset × AList Nat × List String × AList DataArray :=
  match prepare_inputs dsA [("altitude", 1)] dvHourAlt with
  | .ok r => r
  | .error _ => (dsA, [], [], [])

def c4run : Except Err Dataset × PyState × List (String × DerivedVariable) :=
  derive_variables env0 dsA [("my_hour", dvHourAlt)] [("altitude", 1)] st0

def c4out : Dataset :=
  match c4run.1 with
  | .ok d => d
  | .error _ => dsA

/-- Witness for C4 at the claim's own scenario: `altitude` is a required
coordinate under a chunk override, and the output's `altitude` coordinate
carries exactly the input's values. -/
theorem C4_reserved_coordinate_roundtrip_witness :
    ∃ a a0, alGet c4out.coords "altitude" = some a ∧
      dsA.getVar "altitude" = .ok a0 ∧ a.data = a0.data :=
  C4_reserved_coordinate_roundtrip env0 dsA [("altitude", 1)] st0
    [("my_hour", dvHourAlt)] c4out c4run.2.1 c4run.2.2 "altitude"
    (by decide) (by decide) (by decide)
    ⟨("my_hour", dvHourAlt), by decide,
      c4prep.1, c4prep.2.1, c4prep.2.2.1, c4prep.2.2.2,
      rfl, by decide, by decide⟩
    rfl

end MDP
